import Mathlib

/-!
Verification development for the node-level JSX transform core of
`crates/swc_plugin_compile_mode/src/utils/mod.rs`.

The Rust functions are shallowly embedded as executable Lean definitions.
Strings are manipulated through their underlying character lists
(`String.data`), which models Rust byte/char handling for the ASCII inputs
these transforms are written for; the `i32` counter of the naming service is
modelled as a mathematical integer reduced modulo 2^32 into the two's
complement range, i.e. release-mode wrapping semantics.

Definitions come first, theorems afterwards.  Definitions whose Rust source
lives in the `constants` submodule (which is not part of the provided
sources) are modelled from the specification and say so in their doc string.
-/

set_option maxHeartbeats 1000000
set_option maxRecDepth 2048

namespace Taro

/-! ## Constants (from the absent `utils/constants.rs` module) -/

/-- Modelled from the spec: the `if` control-flow pseudo-attribute key
(constant `COMPILE_IF` of the missing `constants` module).  Only its identity
— pairwise distinct from the other pseudo-attribute keys and from
`className` — is relevant to the claims. -/
def COMPILE_IF : String := "compileIf"

/-- Modelled from the spec: the `else` control-flow pseudo-attribute key
(constant `COMPILE_ELSE` of the missing `constants` module). -/
def COMPILE_ELSE : String := "compileElse"

/-- Modelled from the spec: the `for` control-flow pseudo-attribute key
(constant `COMPILE_FOR` of the missing `constants` module). -/
def COMPILE_FOR : String := "compileFor"

/-- Modelled from the spec: the `for-key` control-flow pseudo-attribute key
(constant `COMPILE_FOR_KEY` of the missing `constants` module). -/
def COMPILE_FOR_KEY : String := "compileForKey"

/-- Modelled from the spec: the named slot-marker attribute key (constant
`SLOT_ITEM` of the missing `constants` module).  Only the fact that it is
distinct from `className` is relevant to the claims. -/
def SLOT_ITEM : String := "slot"

/-! ## Text normalizer (`jsx_text_to_string`, source lines 28-49) -/

/-- Embedding of `atom.replace("\t", " ")`: every tab becomes one space. -/
def replace_tab_with_space (l : List Char) : List Char :=
  l.map fun c => if c = '\t' then ' ' else c

/-- Embedding of Rust `str::lines()` on a character list.  `cur` is the
current (reversed) line being accumulated.  A line terminated by `'\n'` has a
trailing `'\r'` stripped (the `"\r\n"` terminator); a final unterminated line
is kept verbatim, and an empty final segment produces no line. -/
def rust_lines_aux (cur : List Char) : List Char → List (List Char)
  | [] => if cur.isEmpty then [] else [cur.reverse]
  | c :: cs =>
    if c = '\n' then
      (if cur.head? = some '\r' then cur.tail else cur).reverse :: rust_lines_aux [] cs
    else
      rust_lines_aux (c :: cur) cs

/-- Rust `str::lines()` as a list-of-lines function. -/
def rust_lines (l : List Char) : List (List Char) := rust_lines_aux [] l

/-- Embedding of Rust `str::trim_start()` (ASCII whitespace). -/
def trim_start_chars (l : List Char) : List Char := l.dropWhile Char.isWhitespace

/-- Embedding of Rust `str::trim_end()` (ASCII whitespace). -/
def trim_end_chars (l : List Char) : List Char :=
  (l.reverse.dropWhile Char.isWhitespace).reverse

/-- Embedding of the `fold` in `jsx_text_to_string`: `idx` is the enumeration
index, the single-element case is the `identify_last` last line (no
trailing trim), the first line (`idx = 0`) keeps its leading whitespace, and
a single space separates a non-empty accumulator from a non-empty line. -/
def jsx_join (acc : List Char) (idx : Nat) : List (List Char) → List Char
  | [] => acc
  | [line] =>
    let line1 := if idx = 0 then line else trim_start_chars line
    let acc1 := if ¬acc.isEmpty = true ∧ ¬line1.isEmpty = true then acc ++ [' '] else acc
    acc1 ++ line1
  | line :: rest =>
    let line1 := if idx = 0 then line else trim_start_chars line
    let line2 := trim_end_chars line1
    let acc1 := if ¬acc.isEmpty = true ∧ ¬line2.isEmpty = true then acc ++ [' '] else acc
    jsx_join (acc1 ++ line2) (idx + 1) rest

/-- Core of `jsx_text_to_string` on character lists. -/
def jsx_text_core (l : List Char) : List Char :=
  jsx_join [] 0 (rust_lines (replace_tab_with_space l))

/-- Embedding of `jsx_text_to_string` (source lines 28-49). -/
def jsx_text_to_string (s : String) : String := ⟨jsx_text_core s.data⟩

/-! ## Kebab-case conversion (`to_kebab_case`, source lines 52-61) -/

/-- Embedding of the character loop of `to_kebab_case`: a hyphen is pushed
before an uppercase character at a non-zero index, then the lowercased
character is pushed. -/
def kebab_aux (idx : Nat) : List Char → List Char
  | [] => []
  | c :: cs =>
    (if idx ≠ 0 ∧ c.isUpper = true then ['-'] else []) ++ (c.toLower :: kebab_aux (idx + 1) cs)

/-- Embedding of `to_kebab_case` (source lines 52-61). -/
def to_kebab_case (val : String) : String := ⟨kebab_aux 0 val.data⟩

/-! ## Attribute key translation (`convert_jsx_attr_key`, source lines 63-84) -/

/-- Association-list model of the `HashMap<String, String>` adapter with its
`get` lookup. -/
def lookup_assoc (m : List (String × String)) (k : String) : Option String :=
  match m with
  | [] => none
  | (a, b) :: rest => if a = k then some b else lookup_assoc rest k

/-- Embedding of `convert_jsx_attr_key` (source lines 63-84).  The
`expect` panic on a missing adapter entry is modelled as `Except.error`
carrying the panic message. -/
def convert_jsx_attr_key (jsx_key : String) (adapter : List (String × String)) :
    Except String String :=
  if jsx_key = "className" then .ok "class"
  else if jsx_key = COMPILE_IF ∨ jsx_key = COMPILE_ELSE ∨ jsx_key = COMPILE_FOR ∨
      jsx_key = COMPILE_FOR_KEY then
    let expr :=
      if jsx_key = COMPILE_IF then "if"
      else if jsx_key = COMPILE_ELSE then "else"
      else if jsx_key = COMPILE_FOR then "for"
      else if jsx_key = COMPILE_FOR_KEY then "key"
      else ""
    match lookup_assoc adapter expr with
    | some a => .ok a
    | none => .error ("[compile mode] 模板 " ++ expr ++ " 语法未配置")
  else .ok (to_kebab_case jsx_key)

/-! ## Event key resolution (`check_is_event_attr` and
`identify_jsx_event_key`, source lines 86-126) -/

/-- Characters of the literal `"Worklet"`. -/
def worklet_chars : List Char := ['W', 'o', 'r', 'k', 'l', 'e', 't']

/-- Characters of the literal `"Worklet"`, reversed. -/
def worklet_chars_rev : List Char := ['t', 'e', 'l', 'k', 'r', 'o', 'W']

/-- Embedding of `val.ends_with("Worklet")`. -/
def ends_with_worklet (s : String) : Bool := worklet_chars_rev.isPrefixOf s.data.reverse

/-- Embedding of `val.trim_end_matches("Worklet")` on the reversed character
list: all leading copies of the reversed pattern are removed, matching the
repeated suffix removal performed by Rust `trim_end_matches`. -/
def strip_worklet_rev : List Char → List Char
  | 't' :: 'e' :: 'l' :: 'k' :: 'r' :: 'o' :: 'W' :: rest => strip_worklet_rev rest
  | l => l

/-- Embedding of `val.trim_end_matches("Worklet")`. -/
def trim_end_matches_worklet (s : String) : String :=
  ⟨(strip_worklet_rev s.data.reverse).reverse⟩

/-- Embedding of `str::starts_with("on")`. -/
def starts_with_on (s : String) : Bool := ['o', 'n'].isPrefixOf s.data

/-- Embedding of `str::to_lowercase` (ASCII). -/
def lower_str (s : String) : String := ⟨s.data.map Char.toLower⟩

/-- Embedding of `check_is_event_attr` (source lines 86-88): the key starts
with `on` and its character at offset 2 is uppercase. -/
def check_is_event_attr (val : String) : Bool :=
  starts_with_on val &&
    (match val.data[2]? with
     | some c => c.isUpper
     | none => false)

/-- Embedding of `identify_jsx_event_key` (source lines 90-126). -/
def identify_jsx_event_key (val platform : String) : Option String :=
  if ends_with_worklet val then
    let worklet_name := trim_end_matches_worklet val
    if starts_with_on worklet_name then some ("worklet:" ++ lower_str worklet_name)
    else some ("worklet:" ++ to_kebab_case worklet_name)
  else if check_is_event_attr val then
    let event_name := lower_str ⟨val.data.drop 2⟩
    let event_name2 := if event_name = "click" then "tap" else event_name
    if platform = "ALIPAY" then
      if event_name2 = "tap" then some "onTap" else some val
    else some ("bind" ++ event_name2)
  else none

/-! ## Naming service (`named_iter`, source lines 20-26) -/

/-- Two's-complement wraparound of an integer into the `i32` range, i.e. the
release-mode semantics of `count += 1` on a Rust `i32`. -/
def wrap_i32 (n : Int) : Int := (n + 2147483648) % 4294967296 - 2147483648

/-- Decimal digit characters of `n`, most significant first, written with an
explicit recursion budget so the definition reduces in the kernel; fifteen
digits cover every value an `i32` can take. -/
def nat_digit_chars_aux : Nat → Nat → List Char
  | 0, _ => []
  | fuel + 1, n => if n = 0 then [] else nat_digit_chars_aux fuel (n / 10) ++ [Nat.digitChar (n % 10)]

/-- Decimal rendering of a natural number (valid below 10^15, which covers
the `i32` range used by the naming counter). -/
def nat_to_chars (n : Nat) : List Char :=
  if n = 0 then ['0'] else nat_digit_chars_aux 15 n

/-- Decimal rendering of an integer, as Rust `Display` for `i32` prints it. -/
def int_to_chars (i : Int) : List Char :=
  if i < 0 then '-' :: nat_to_chars (-i).toNat else nat_to_chars i.toNat

/-- Decimal rendering of an integer as a string. -/
def int_to_string (i : Int) : String := ⟨int_to_chars i⟩

/-- State captured by the closure returned by `named_iter`: the prefix
string and the mutable `i32` counter. -/
structure NamedIterState where
  str : String
  count : Int

/-- Embedding of `named_iter` (source lines 20-26): the counter starts at
`-1`. -/
def named_iter (s : String) : NamedIterState := ⟨s, -1⟩

/-- One call of the closure: the counter is incremented (with `i32`
wraparound) and the output is the prefix followed by the decimal rendering of
the new counter value, as `format!` produces it. -/
def NamedIterState.call (st : NamedIterState) : String × NamedIterState :=
  let c := wrap_i32 (st.count + 1)
  (st.str ++ int_to_string c, ⟨st.str, c⟩)

/-- State of the closure after `n` calls. -/
def iter_state (s : String) : Nat → NamedIterState
  | 0 => named_iter s
  | n + 1 => ((iter_state s n).call).2

/-- Output of the `n`-th call (counting from 0) of the closure returned by
`named_iter s`. -/
def nth_output (s : String) (n : Nat) : String := ((iter_state s n).call).1

/-! ## The JSX / expression AST

A closed embedding of the `swc` AST fragment the transform touches.  Variants
the transform never distinguishes are collapsed into an `other` constructor;
as in the source, `other` values are container-free and never rewritten. -/

/-- Literal values; the transform only ever constructs string literals. -/
inductive Lit where
  | str (value : String)
  | other
deriving DecidableEq

/-- Attribute name: an identifier or a namespaced name. -/
inductive JSXAttrName where
  | ident (sym : String)
  | other
deriving DecidableEq

/-- Element name: an identifier or a member/namespaced name. -/
inductive JSXElementName where
  | ident (sym : String)
  | other
deriving DecidableEq

/-- Member property: an identifier or a computed/private property. -/
inductive MemberProp where
  | ident (sym : String)
  | other
deriving DecidableEq

mutual

/-- Expressions (the `swc` `Expr` variants the transform inspects). -/
inductive Expr where
  | member (obj : Expr) (prop : MemberProp)
  | ident (sym : String)
  | lit (l : Lit)
  | paren (inner : Expr)
  | fnExpr (body : Option (List Stmt))
  | arrow (body : BlockStmtOrExpr)
  | call (callee : Expr) (args : List ExprOrSpread)
  | jsxElement (el : JSXElement)
  | jsxFragment (frag : JSXFragment)
  | other

/-- A call argument: an expression with an optional spread marker. -/
inductive ExprOrSpread where
  | mk (spread : Bool) (expr : Expr)

/-- Statements: only trailing `return` statements matter to the transform. -/
inductive Stmt where
  | ret (arg : Option Expr)
  | other

/-- Arrow-function body: a block or a concise expression. -/
inductive BlockStmtOrExpr where
  | blockStmt (stmts : List Stmt)
  | expr (e : Expr)

/-- Content of a JSX expression container. -/
inductive JSXExpr where
  | jsxEmptyExpr
  | expr (e : Expr)

/-- A JSX expression container node (`{...}`). -/
inductive JSXExprContainer where
  | mk (expr : JSXExpr)

/-- Attribute value: a literal, an expression container, or another form. -/
inductive JSXAttrValue where
  | lit (l : Lit)
  | jsxExprContainer (container : JSXExprContainer)
  | other

/-- A JSX attribute: a name and an optional value. -/
inductive JSXAttr where
  | mk (name : JSXAttrName) (value : Option JSXAttrValue)

/-- An entry of an opening tag's attribute list. -/
inductive JSXAttrOrSpread where
  | jsxAttr (attr : JSXAttr)
  | spreadElement (expr : Expr)

/-- An opening tag: name, attributes, self-closing flag. -/
inductive JSXOpeningElement where
  | mk (name : JSXElementName) (attrs : List JSXAttrOrSpread) (selfClosing : Bool)

/-- A JSX element: opening tag, children, optional closing-tag name. -/
inductive JSXElement where
  | mk (opening : JSXOpeningElement) (children : List JSXElementChild) (closing : Option JSXElementName)

/-- A JSX fragment: just children. -/
inductive JSXFragment where
  | mk (children : List JSXElementChild)

/-- A child of an element or fragment. -/
inductive JSXElementChild where
  | jsxText (value : String)
  | jsxExprContainer (container : JSXExprContainer)
  | jsxElement (el : JSXElement)
  | jsxFragment (frag : JSXFragment)
  | other

end

/-- Opening tag of an element. -/
def JSXElement.opening : JSXElement → JSXOpeningElement
  | .mk o _ _ => o

/-- Children of an element. -/
def JSXElement.children : JSXElement → List JSXElementChild
  | .mk _ c _ => c

/-- Closing-tag name of an element. -/
def JSXElement.closing : JSXElement → Option JSXElementName
  | .mk _ _ c => c

/-- Name field of an opening tag. -/
def JSXOpeningElement.name : JSXOpeningElement → JSXElementName
  | .mk n _ _ => n

/-- Attribute list of an opening tag. -/
def JSXOpeningElement.attrs : JSXOpeningElement → List JSXAttrOrSpread
  | .mk _ a _ => a

/-- Self-closing flag of an opening tag. -/
def JSXOpeningElement.selfClosing : JSXOpeningElement → Bool
  | .mk _ _ s => s

/-- Expression of a call argument. -/
def ExprOrSpread.expr : ExprOrSpread → Expr
  | .mk _ e => e

/-- Embedding of `Expr::is_arrow`. -/
def Expr.is_arrow : Expr → Bool
  | .arrow _ => true
  | _ => false

/-- Embedding of `Expr::is_fn_expr`. -/
def Expr.is_fn_expr : Expr → Bool
  | .fnExpr _ => true
  | _ => false

/-! ## Attribute constructors (source lines 171-196) -/

/-- Embedding of `create_jsx_bool_attr` (source lines 182-188). -/
def create_jsx_bool_attr (name : String) : JSXAttrOrSpread :=
  .jsxAttr (.mk (.ident name) none)

/-- Embedding of `create_jsx_lit_attr` (source lines 190-196). -/
def create_jsx_lit_attr (name : String) (l : Lit) : JSXAttrOrSpread :=
  .jsxAttr (.mk (.ident name) (some (.lit l)))

/-! ## Static classifier (`is_static_jsx`, source lines 138-151) -/

/-- Embedding of `is_static_jsx` (source lines 138-151): no attributes and
only `JSXText` children. -/
def is_static_jsx (el : JSXElement) : Bool :=
  if el.opening.attrs.length > 0 then false
  else
    el.children.all fun child =>
      match child with
      | .jsxText _ => true
      | _ => false

/-! ## Expression-container detector (`is_static_jsx_element_child`, source
lines 471-490).  The source runs a generic `swc` visitor over the whole
subtree and records whether any `JSXExprContainer` node was visited; the
mutual functions below are that traversal. -/

mutual

/-- Does the subtree of an expression contain a JSX expression container? -/
def has_jsx_expr_expr : Expr → Bool
  | .member obj _ => has_jsx_expr_expr obj
  | .ident _ => false
  | .lit _ => false
  | .paren inner => has_jsx_expr_expr inner
  | .fnExpr none => false
  | .fnExpr (some stmts) => has_jsx_expr_stmts stmts
  | .arrow (.blockStmt stmts) => has_jsx_expr_stmts stmts
  | .arrow (.expr e) => has_jsx_expr_expr e
  | .call callee args => has_jsx_expr_expr callee || has_jsx_expr_args args
  | .jsxElement el => has_jsx_expr_element el
  | .jsxFragment (.mk children) => has_jsx_expr_children children
  | .other => false

/-- Container search through a list of call arguments. -/
def has_jsx_expr_args : List ExprOrSpread → Bool
  | [] => false
  | .mk _ e :: rest => has_jsx_expr_expr e || has_jsx_expr_args rest

/-- Container search through a statement. -/
def has_jsx_expr_stmt : Stmt → Bool
  | .ret (some e) => has_jsx_expr_expr e
  | .ret none => false
  | .other => false

/-- Container search through a list of statements. -/
def has_jsx_expr_stmts : List Stmt → Bool
  | [] => false
  | s :: rest => has_jsx_expr_stmt s || has_jsx_expr_stmts rest

/-- Container search through an attribute value; a container used as an
attribute value is itself a hit. -/
def has_jsx_expr_attr_value : JSXAttrValue → Bool
  | .lit _ => false
  | .jsxExprContainer _ => true
  | .other => false

/-- Container search through one attribute-list entry. -/
def has_jsx_expr_attr : JSXAttrOrSpread → Bool
  | .jsxAttr (.mk _ (some v)) => has_jsx_expr_attr_value v
  | .jsxAttr (.mk _ none) => false
  | .spreadElement e => has_jsx_expr_expr e

/-- Container search through an attribute list. -/
def has_jsx_expr_attrs : List JSXAttrOrSpread → Bool
  | [] => false
  | a :: rest => has_jsx_expr_attr a || has_jsx_expr_attrs rest

/-- Container search through an element (attributes and children). -/
def has_jsx_expr_element : JSXElement → Bool
  | .mk (.mk _ attrs _) children _ =>
    has_jsx_expr_attrs attrs || has_jsx_expr_children children

/-- Container search through one child node. -/
def has_jsx_expr_child : JSXElementChild → Bool
  | .jsxText _ => false
  | .jsxExprContainer _ => true
  | .jsxElement el => has_jsx_expr_element el
  | .jsxFragment (.mk children) => has_jsx_expr_children children
  | .other => false

/-- Container search through a child list. -/
def has_jsx_expr_children : List JSXElementChild → Bool
  | [] => false
  | c :: rest => has_jsx_expr_child c || has_jsx_expr_children rest

end

/-- Embedding of `is_static_jsx_element_child` (source lines 471-490): true
iff the visitor found no JSX expression container in the subtree. -/
def is_static_jsx_element_child (child : JSXElementChild) : Bool :=
  !(has_jsx_expr_child child)

/-! ## Loop detector and rewriter (source lines 279-387) -/

/-- Embedding of `is_call_expr_of_loop` (source lines 279-292): the callee is
a member access whose property is the identifier `map` and the first
argument is an arrow or function expression. -/
def is_call_expr_of_loop (callee_expr : Expr) (args : List ExprOrSpread) : Bool :=
  match callee_expr with
  | .member _ (.ident sym) =>
    if sym = "map" then
      match args with
      | a :: _ => a.expr.is_arrow || a.expr.is_fn_expr
      | [] => false
    else false
  | _ => false

/-- The two attributes the loop rewriter appends: the boolean for-loop
marker and the for-key attribute with literal value `"sid"`. -/
def loop_mark_attrs : List JSXAttrOrSpread :=
  [create_jsx_bool_attr COMPILE_FOR,
   create_jsx_lit_attr COMPILE_FOR_KEY (.str "sid")]

/-- Embedding of the single parenthesization unwrap (`if let Expr::Paren`,
source lines 315-317). -/
def unparen : Expr → Expr
  | .paren inner => inner
  | e => e

/-- Embedding of the inner `update_return_el` (source lines 314-351).  The
returned pair is the (possibly rewritten) return-value expression together
with the element handed back by the rewriter; the single parenthesization is
unwrapped in place before the JSX check, exactly as `*return_value =
expr.take()` does. -/
def update_return_el (return_value : Expr) : Expr × Option JSXElement :=
  match unparen return_value with
  | .jsxElement (.mk (.mk name attrs selfClosing) children closing) =>
    let el := JSXElement.mk (.mk name (attrs ++ loop_mark_attrs) selfClosing) children closing
    (.jsxElement el, some el)
  | .jsxFragment (.mk children) =>
    let block_el := JSXElement.mk (.mk (.ident "block") loop_mark_attrs false) children
      (some (.ident "block"))
    (.jsxElement block_el, some block_el)
  | e => (e, none)

/-- Rewriting of the trailing `return` of a block body (the
`stmts.last_mut()` pattern of source lines 359-364 and 370-375): when the
last statement is a `return` with a value the value is rewritten in place,
otherwise nothing happens. -/
def rewrite_last_return_stmts (stmts : List Stmt) : List Stmt × Option JSXElement :=
  match stmts.getLast? with
  | some (.ret (some rv)) =>
    let r := update_return_el rv
    (stmts.dropLast ++ [.ret (some r.1)], r.2)
  | _ => (stmts, none)

/-- Embedding of `extract_jsx_loop` (source lines 308-387).  The result is
the (possibly mutated) argument list together with the element returned by
the rewriter; `none` in the second component is the source's `None`. -/
def extract_jsx_loop (callee_expr : Expr) (args : List ExprOrSpread) :
    List ExprOrSpread × Option JSXElement :=
  if is_call_expr_of_loop callee_expr args then
    match args with
    | .mk spread cb :: rest =>
      match cb with
      | .fnExpr (some stmts) =>
        let r := rewrite_last_return_stmts stmts
        (.mk spread (.fnExpr (some r.1)) :: rest, r.2)
      | .arrow (.blockStmt stmts) =>
        let r := rewrite_last_return_stmts stmts
        (.mk spread (.arrow (.blockStmt r.1)) :: rest, r.2)
      | .arrow (.expr rv) =>
        let r := update_return_el rv
        (.mk spread (.arrow (.expr r.1)) :: rest, r.2)
      | _ => (args, none)
    | [] => (args, none)
  else (args, none)

/-! ## Element constructors and the List / ListItem rewrites (source lines
533-671) -/

/-- Embedding of `create_jsx_ident_opening_element` (source lines 533-541). -/
def create_jsx_ident_opening_element (name : String) (attrs : List JSXAttrOrSpread) :
    JSXOpeningElement :=
  .mk (.ident name) attrs false

/-- Embedding of `create_jsx_ident_closing_element` (source lines 543-548). -/
def create_jsx_ident_closing_element (name : String) : JSXElementName :=
  .ident name

/-- Embedding of `create_jsx_element` (source lines 550-561). -/
def create_jsx_element (name : String) (attrs : List JSXAttrOrSpread)
    (children : List JSXElementChild) : JSXElement :=
  .mk (create_jsx_ident_opening_element name attrs) children
    (some (create_jsx_ident_closing_element name))

/-- Key of an attribute-list entry: the identifier name of a plain JSX
attribute, `none` for spreads and namespaced names. -/
def attr_key : JSXAttrOrSpread → Option String
  | .jsxAttr (.mk (.ident name) _) => some name
  | _ => none

/-- Embedding of `extract_list_props` (source lines 563-595): clone the
attribute list, retain the plain identifier-named attributes whose name is in
the target set, then rename in place through the alias table. -/
def extract_list_props (attrs : List JSXAttrOrSpread) (target_attrs : List String)
    (attrs_alias : List (String × String)) : List JSXAttrOrSpread :=
  let kept := attrs.filter fun attr =>
    match attr with
    | .jsxAttr (.mk (.ident name) _) => target_attrs.contains name
    | _ => false
  kept.map fun attr =>
    match attr with
    | .jsxAttr (.mk (.ident name) v) =>
      match lookup_assoc attrs_alias name with
      | some al => .jsxAttr (.mk (.ident al) v)
      | none => .jsxAttr (.mk (.ident name) v)
    | a => a

/-- The scroll-view attribute allowlist (source lines 602-622). -/
def scroll_view_target_attrs : List String :=
  ["scrollX", "scrollY", "scrollTop", "upperThresholdCount", "lowerThresholdCount",
   "scrollIntoView", "enableBackToTop", "showScrollbar", "onScroll", "onScrollStart",
   "onScrollEnd", "onScrollToUpper", "onScrollToLower", "compileMode", "className",
   "cacheExtent", "style", "id", "key"]

/-- The scroll-view rename alias table (source lines 598-601). -/
def scroll_view_props_alias : List (String × String) :=
  [("upperThresholdCount", "upperThreshold"), ("lowerThresholdCount", "lowerThreshold")]

/-- Embedding of `extract_scroll_view_props` (source lines 597-630): the
filtered and renamed attributes, then a forced `type="custom"`. -/
def extract_scroll_view_props (el : JSXElement) : List JSXAttrOrSpread :=
  extract_list_props el.opening.attrs scroll_view_target_attrs scroll_view_props_alias ++
    [.jsxAttr (.mk (.ident "type") (some (.lit (.str "custom"))))]

/-- The list-builder attribute allowlist (source lines 634-642). -/
def list_builder_target_attrs : List String :=
  ["padding", "type", "list", "childCount", "childHeight", "onItemBuild", "onItemDispose"]

/-- Embedding of `extract_list_builder_props` (source lines 632-650): the
filtered attributes (no aliases), then a forced `className="list-builder"`. -/
def extract_list_builder_props (el : JSXElement) : List JSXAttrOrSpread :=
  extract_list_props el.opening.attrs list_builder_target_attrs [] ++
    [.jsxAttr (.mk (.ident "className") (some (.lit (.str "list-builder"))))]

/-- Embedding of `transform_list_component` (source lines 652-663): the
element is replaced by a `scroll-view` wrapping a single `list-builder` that
carries the original children. -/
def transform_list_component (el : JSXElement) : JSXElement :=
  let children := el.children
  create_jsx_element "scroll-view" (extract_scroll_view_props el)
    [.jsxElement (create_jsx_element "list-builder" (extract_list_builder_props el) children)]

/-- Embedding of `transform_list_item_component` (source lines 665-671): the
element is replaced by a `view` carrying the original attributes plus the
slot marker and a forced `className="list-item"`. -/
def transform_list_item_component (el : JSXElement) : JSXElement :=
  let children := el.children
  let attrs := el.opening.attrs ++
    [create_jsx_lit_attr SLOT_ITEM (.str "item"),
     create_jsx_lit_attr "className" (.str "list-item")]
  create_jsx_element "view" attrs children

/-! ## Specification-side definitions

These follow the wording of the specification / claims; the theorems below
compare them with the embeddings above. -/

/-- Claim-side: hyphen insertion of the kebab-case description — keep the
first character, and put a hyphen before every later uppercase character. -/
def insert_hyphens : List Char → List Char
  | [] => []
  | c :: rest => c :: (rest.map fun d => if d.isUpper then ['-', d] else [d]).flatten

/-- Claim-side: lowercase every character (after hyphen insertion). -/
def kebab_case_spec (val : String) : String :=
  ⟨(insert_hyphens val.data).map Char.toLower⟩

/-- Claim-side: the adapter lookup behaviour the (amended) claim C3
describes — the mapped name on a hit, a fatal error naming the missing
keyword on a miss. -/
def adapter_lookup_spec (adapter : List (String × String)) (kw : String) :
    Except String String :=
  match lookup_assoc adapter kw with
  | some v => .ok v
  | none => .error ("[compile mode] 模板 " ++ kw ++ " 语法未配置")

/-- Claim-side: the event name of claim C4 — the key without its first two
characters, lower-cased, with `click` canonicalized to `tap`. -/
def claim_event_name (val : String) : String :=
  let e := lower_str ⟨val.data.drop 2⟩
  if e = "click" then "tap" else e

/-- Claim-side: `k` concatenated copies of `"Worklet"` (used to state what
suffix-stripping removed). -/
def worklet_copies (k : Nat) : List Char :=
  (List.replicate k worklet_chars).flatten

/-- Claim-side locator of a loop callback's return value: the last
statement's return argument for a block body, the body itself for a concise
arrow. -/
def jsx_loop_callback_return_value (cb : Expr) : Option Expr :=
  match cb with
  | .fnExpr (some stmts) =>
    match stmts.getLast? with
    | some (.ret (some rv)) => some rv
    | _ => none
  | .arrow (.blockStmt stmts) =>
    match stmts.getLast? with
    | some (.ret (some rv)) => some rv
    | _ => none
  | .arrow (.expr rv) => some rv
  | _ => none

/-- Claim-side write-back of a rewritten return value into the callback. -/
def set_return_value (cb : Expr) (rv : Expr) : Expr :=
  match cb with
  | .fnExpr (some stmts) => .fnExpr (some (stmts.dropLast ++ [.ret (some rv)]))
  | .arrow (.blockStmt stmts) => .arrow (.blockStmt (stmts.dropLast ++ [.ret (some rv)]))
  | .arrow (.expr _) => .arrow (.expr rv)
  | e => e

/-- Claim-side loop rewrite, following the amended claim C1: locate the
return value, unwrap a single parenthesization (the unwrapping persists in
the call), then append the two loop attributes to a returned element,
promote a returned fragment to a `block` element with the same attributes
and the fragment's children, and do nothing else otherwise. -/
def extract_jsx_loop_spec (callee_expr : Expr) (args : List ExprOrSpread) :
    List ExprOrSpread × Option JSXElement :=
  if is_call_expr_of_loop callee_expr args then
    match args with
    | [] => (args, none)
    | .mk spread cb :: rest =>
      match jsx_loop_callback_return_value cb with
      | none => (args, none)
      | some rv =>
        match unparen rv with
        | .jsxElement (.mk (.mk name attrs selfClosing) children closing) =>
          let el := JSXElement.mk (.mk name (attrs ++ loop_mark_attrs) selfClosing)
            children closing
          (.mk spread (set_return_value cb (.jsxElement el)) :: rest, some el)
        | .jsxFragment (.mk children) =>
          let el := JSXElement.mk (.mk (.ident "block") loop_mark_attrs false) children
            (some (.ident "block"))
          (.mk spread (set_return_value cb (.jsxElement el)) :: rest, some el)
        | rv2 => (.mk spread (set_return_value cb rv2) :: rest, none)
  else (args, none)

/-- Claim-side filter of an attribute list to an allowlist of keys. -/
def allowlist_filter (allow : List String) (attrs : List JSXAttrOrSpread) :
    List JSXAttrOrSpread :=
  attrs.filter fun a =>
    match attr_key a with
    | some k => allow.contains k
    | none => false

/-- Claim-side renaming of the two threshold attributes. -/
def rename_threshold_attr : JSXAttrOrSpread → JSXAttrOrSpread
  | .jsxAttr (.mk (.ident name) v) =>
    if name = "upperThresholdCount" then .jsxAttr (.mk (.ident "upperThreshold") v)
    else if name = "lowerThresholdCount" then .jsxAttr (.mk (.ident "lowerThreshold") v)
    else .jsxAttr (.mk (.ident name) v)
  | a => a

/-- The forced `type="custom"` attribute of the scroll-view rewrite. -/
def type_custom_attr : JSXAttrOrSpread :=
  .jsxAttr (.mk (.ident "type") (some (.lit (.str "custom"))))

/-- The forced `className="list-builder"` attribute. -/
def class_list_builder_attr : JSXAttrOrSpread :=
  .jsxAttr (.mk (.ident "className") (some (.lit (.str "list-builder"))))

/-- Keys of the plain identifier-named attributes of an attribute list. -/
def attr_keys_of (attrs : List JSXAttrOrSpread) : List String :=
  attrs.filterMap attr_key

/-- All attribute keys of an element and of its direct element children (the
two levels produced by the List rewrite). -/
def result_attr_keys (el : JSXElement) : List String :=
  attr_keys_of el.opening.attrs ++
    (el.children.filterMap fun c =>
      match c with
      | .jsxElement inner => some (attr_keys_of inner.opening.attrs)
      | _ => none).flatten

/-- The slot-marker attribute the ListItem rewrite appends. -/
def slot_item_attr : JSXAttrOrSpread := create_jsx_lit_attr SLOT_ITEM (.str "item")

/-- The forced `className="list-item"` attribute of the ListItem rewrite. -/
def class_list_item_attr : JSXAttrOrSpread := create_jsx_lit_attr "className" (.str "list-item")

/-! ## Containment of a JSX expression container, as a derivation system

`ECIn… x` holds exactly when the full subtree of `x` contains at least one
JSX expression container node.  This is the specification-side reading of
claim C9, stated independently of the boolean traversal above. -/

mutual

/-- An expression's subtree contains a JSX expression container. -/
inductive ECInExpr : Expr → Prop where
  | member (obj : Expr) (prop : MemberProp) :
      ECInExpr obj → ECInExpr (.member obj prop)
  | paren (inner : Expr) : ECInExpr inner → ECInExpr (.paren inner)
  | fnBody (stmts : List Stmt) (s : Stmt) (hs : s ∈ stmts) :
      ECInStmt s → ECInExpr (.fnExpr (some stmts))
  | arrowBlock (stmts : List Stmt) (s : Stmt) (hs : s ∈ stmts) :
      ECInStmt s → ECInExpr (.arrow (.blockStmt stmts))
  | arrowExpr (e : Expr) : ECInExpr e → ECInExpr (.arrow (.expr e))
  | callCallee (callee : Expr) (args : List ExprOrSpread) :
      ECInExpr callee → ECInExpr (.call callee args)
  | callArg (callee : Expr) (args : List ExprOrSpread) (spread : Bool) (e : Expr)
      (ha : ExprOrSpread.mk spread e ∈ args) :
      ECInExpr e → ECInExpr (.call callee args)
  | jsxEl (el : JSXElement) : ECInElement el → ECInExpr (.jsxElement el)
  | jsxFrag (children : List JSXElementChild) (c : JSXElementChild)
      (hc : c ∈ children) : ECInChild c → ECInExpr (.jsxFragment (.mk children))

/-- A statement's subtree contains a JSX expression container. -/
inductive ECInStmt : Stmt → Prop where
  | ret (e : Expr) : ECInExpr e → ECInStmt (.ret (some e))

/-- An element's subtree contains a JSX expression container. -/
inductive ECInElement : JSXElement → Prop where
  | attr (name : JSXElementName) (attrs : List JSXAttrOrSpread) (sc : Bool)
      (children : List JSXElementChild) (closing : Option JSXElementName)
      (a : JSXAttrOrSpread) (ha : a ∈ attrs) :
      ECInAttr a → ECInElement (.mk (.mk name attrs sc) children closing)
  | child (name : JSXElementName) (attrs : List JSXAttrOrSpread) (sc : Bool)
      (children : List JSXElementChild) (closing : Option JSXElementName)
      (c : JSXElementChild) (hc : c ∈ children) :
      ECInChild c → ECInElement (.mk (.mk name attrs sc) children closing)

/-- An attribute entry's subtree contains a JSX expression container. -/
inductive ECInAttr : JSXAttrOrSpread → Prop where
  | value (name : JSXAttrName) (c : JSXExprContainer) :
      ECInAttr (.jsxAttr (.mk name (some (.jsxExprContainer c))))
  | spread (e : Expr) : ECInExpr e → ECInAttr (.spreadElement e)

/-- A child node's subtree contains a JSX expression container. -/
inductive ECInChild : JSXElementChild → Prop where
  | container (c : JSXExprContainer) : ECInChild (.jsxExprContainer c)
  | element (el : JSXElement) : ECInElement el → ECInChild (.jsxElement el)
  | fragment (children : List JSXElementChild) (c : JSXElementChild)
      (hc : c ∈ children) : ECInChild c → ECInChild (.jsxFragment (.mk children))

end

/-! ## Concrete inputs used by counterexamples and witnesses -/

/-- The callee `list.map` of a recognized loop call. -/
def cex_map_callee : Expr := .member (.ident "list") (.ident "map")

/-- A loop-call argument list whose concise arrow body is a parenthesized
non-JSX expression: `item => (item)`. -/
def cex_paren_args : List ExprOrSpread :=
  [.mk false (.arrow (.expr (.paren (.ident "item"))))]

/-- Observer: is the first argument a concise arrow whose body is a
parenthesized expression? -/
def first_arg_body_is_paren (args : List ExprOrSpread) : Bool :=
  match args with
  | .mk _ (.arrow (.expr (.paren _))) :: _ => true
  | _ => false

/-- An adapter that maps the keyword `for-key` (the claim's reading) but not
the keyword `key` (the one the code looks up). -/
def cex_for_key_adapter : List (String × String) :=
  [("if", "wx:if"), ("else", "wx:else"), ("for", "wx:for"), ("for-key", "wx:key")]

/-- A sample `List` element: two allowlisted attributes (one renamed), one
attribute in neither allowlist, one text child. -/
def ex_list_element : JSXElement :=
  .mk (.mk (.ident "List")
    [.jsxAttr (.mk (.ident "scrollX") none),
     .jsxAttr (.mk (.ident "droppedProp") (some (.lit (.str "x")))),
     .jsxAttr (.mk (.ident "upperThresholdCount") (some (.lit (.str "5"))))]
    false)
    [.jsxText "row"] (some (.ident "List"))

/-! ## Theorems -/

/-! ### Kebab-case conversion versus its two-phase description -/

/-- At a non-zero index the kebab conversion is hyphen insertion followed by
lowercasing, uniformly in the index. -/
theorem kebab_aux_pos (cs : List Char) :
    ∀ i : Nat, i ≠ 0 →
      kebab_aux i cs = ((cs.map fun d => if d.isUpper = true then ['-', d] else [d]).flatten).map
        Char.toLower := by
  induction cs with
  | nil => intro i _; rfl
  | cons c rest ih =>
    intro i hi
    have hrec := ih (i + 1) (by omega)
    by_cases hc : c.isUpper = true
    · have hdash : ('-').toLower = '-' := rfl
      simp [kebab_aux, hi, hc, hrec, hdash]
    · simp [kebab_aux, hi, hc, hrec]

/-- The source kebab conversion agrees with the claim's description: insert
a hyphen before every uppercase character that is not the first character,
then lowercase everything. -/
theorem to_kebab_case_eq_spec (val : String) : to_kebab_case val = kebab_case_spec val := by
  unfold to_kebab_case kebab_case_spec
  cases hd : val.data with
  | nil => rfl
  | cons c rest =>
    have h := kebab_aux_pos rest 1 (by omega)
    simp [kebab_aux, insert_hyphens, h]

/-- C6: `convert_jsx_attr_key` maps the exact key `className` to `class`,
and every other key that is not one of the four control-flow
pseudo-attributes to its kebab-case conversion — a hyphen inserted before
every uppercase letter that is not the first character, then every letter
lowercased. -/
theorem convert_jsx_attr_key_claim (adapter : List (String × String)) (k : String) :
    convert_jsx_attr_key "className" adapter = .ok "class" ∧
    (k ≠ "className" → k ≠ COMPILE_IF → k ≠ COMPILE_ELSE → k ≠ COMPILE_FOR →
      k ≠ COMPILE_FOR_KEY →
      convert_jsx_attr_key k adapter = .ok (kebab_case_spec k)) := by
  constructor
  · rfl
  · intro h0 h1 h2 h3 h4
    rw [← to_kebab_case_eq_spec]
    simp [convert_jsx_attr_key, h0, h1, h2, h3, h4]

/-- Witness for C6 at `className` and `scrollIntoView`. -/
theorem convert_jsx_attr_key_claim_witness :
    convert_jsx_attr_key "className" [] = .ok "class" ∧
    convert_jsx_attr_key "scrollIntoView" [] = .ok "scroll-into-view" := by
  have h := convert_jsx_attr_key_claim [] "scrollIntoView"
  refine ⟨h.1, ?_⟩
  rw [h.2 (by decide) (by decide) (by decide) (by decide) (by decide)]
  rfl

/-! ### Control-flow pseudo-attributes (claim C3) -/

/-- Counterexample to C3 as stated: with an adapter that maps the keyword
`for-key` (and `if`, `else`, `for`) but not the keyword `key`, the for-key
pseudo-attribute does not resolve to the `for-key` entry; the code looks up
`key` and fails fatally even though `for-key` is configured. -/
theorem convert_jsx_attr_key_for_key_cex :
    convert_jsx_attr_key COMPILE_FOR_KEY cex_for_key_adapter =
      Except.error "[compile mode] 模板 key 语法未配置" ∧
    convert_jsx_attr_key COMPILE_FOR_KEY cex_for_key_adapter ≠ Except.ok "wx:key" := by
  have h : convert_jsx_attr_key COMPILE_FOR_KEY cex_for_key_adapter =
      Except.error "[compile mode] 模板 key 语法未配置" := rfl
  refine ⟨h, ?_⟩
  rw [h]
  intro hcontra
  exact Except.noConfusion hcontra

/-- C3 (amended): each of the four control-flow pseudo-attribute keys is
resolved by looking the keyword `if`, `else`, `for`, or `key` (not
`for-key`) up in the adapter; a present entry is returned as the translated
key, a missing entry is a fatal error whose message names the missing
keyword. -/
theorem convert_jsx_attr_key_control_flow (adapter : List (String × String)) :
    convert_jsx_attr_key COMPILE_IF adapter = adapter_lookup_spec adapter "if" ∧
    convert_jsx_attr_key COMPILE_ELSE adapter = adapter_lookup_spec adapter "else" ∧
    convert_jsx_attr_key COMPILE_FOR adapter = adapter_lookup_spec adapter "for" ∧
    convert_jsx_attr_key COMPILE_FOR_KEY adapter = adapter_lookup_spec adapter "key" :=
  ⟨rfl, rfl, rfl, rfl⟩

/-! ### ListItem rewrite (claim C10) -/

/-- C10: `transform_list_item_component` always produces a `view` element
keeping every original attribute unchanged and in order, appends exactly the
slot-marker attribute with literal value `item` and a `className="list-item"`
attribute at the end, preserves the children, and performs no `className`
deduplication — the resulting `view` has one more `className` key than the
original element had. -/
theorem transform_list_item_component_claim (el : JSXElement) :
    transform_list_item_component el =
      JSXElement.mk (.mk (.ident "view")
        (el.opening.attrs ++ [slot_item_attr, class_list_item_attr]) false)
        el.children (some (.ident "view")) ∧
    (attr_keys_of (transform_list_item_component el).opening.attrs).count "className" =
      (attr_keys_of el.opening.attrs).count "className" + 1 := by
  constructor
  · rfl
  · have h2 : attr_keys_of (transform_list_item_component el).opening.attrs
        = attr_keys_of el.opening.attrs ++ [SLOT_ITEM, "className"] := by
      simp [transform_list_item_component, create_jsx_element,
        create_jsx_ident_opening_element, create_jsx_ident_closing_element,
        JSXElement.opening, JSXOpeningElement.attrs, attr_keys_of,
        List.filterMap_append, create_jsx_lit_attr, attr_key]
    rw [h2, List.count_append]
    rfl

/-! ### Event key resolution (claims C4 and C5) -/

/-- C4: a key that does not end in `Worklet` is classified as an event
attribute exactly when it starts with `on` followed by an uppercase
character at offset 2; for event keys the result is `onTap` on `ALIPAY` when
the event name (remainder lower-cased, `click` canonicalized to `tap`) is
`tap`, the untouched original key on `ALIPAY` otherwise, and `bind` plus the
event name on every other platform; for any other key the result is
`none`. -/
theorem identify_jsx_event_key_non_worklet (val platform : String)
    (hw : ends_with_worklet val = false) :
    (check_is_event_attr val = true ↔
      (val.data.take 2 = ['o', 'n'] ∧ (val.data[2]?.any Char.isUpper) = true)) ∧
    identify_jsx_event_key val platform =
      (if check_is_event_attr val then
        some (if platform = "ALIPAY" then
                (if claim_event_name val = "tap" then "onTap" else val)
              else "bind" ++ claim_event_name val)
       else none) := by
  constructor
  · unfold check_is_event_attr starts_with_on
    rw [Bool.and_eq_true]
    have hpre : (['o', 'n'].isPrefixOf val.data = true) ↔ (val.data.take 2 = ['o', 'n']) := by
      rw [List.isPrefixOf_iff_prefix, List.prefix_iff_eq_take]
      constructor
      · intro h; exact h.symm
      · intro h; exact h.symm
    have hup : ((match val.data[2]? with | some c => c.isUpper | none => false) = true)
        ↔ ((val.data[2]?.any Char.isUpper) = true) := by
      cases val.data[2]? <;> simp [Option.any]
    rw [hpre, hup]
  · unfold identify_jsx_event_key
    rw [hw]
    simp only [Bool.false_eq_true, if_false]
    by_cases hc : check_is_event_attr val = true
    · simp only [hc, if_true]
      unfold claim_event_name
      by_cases hp : platform = "ALIPAY" <;>
        by_cases he : (if lower_str ⟨val.data.drop 2⟩ = "click" then "tap"
            else lower_str ⟨val.data.drop 2⟩) = "tap" <;>
        simp [hp, he]
    · simp [hc]

/-- Witness for C4: `onClick` resolves to `bindtap` on the default platform,
an `ALIPAY` non-tap event key passes through untouched, and a non-event key
resolves to `none`. -/
theorem identify_jsx_event_key_non_worklet_witness :
    identify_jsx_event_key "onClick" "WEAPP" = some "bindtap" ∧
    identify_jsx_event_key "onFoo" "ALIPAY" = some "onFoo" ∧
    identify_jsx_event_key "bar" "WEAPP" = none := by
  refine ⟨?_, ?_, ?_⟩
  · rw [(identify_jsx_event_key_non_worklet "onClick" "WEAPP" (by decide)).2]; rfl
  · rw [(identify_jsx_event_key_non_worklet "onFoo" "ALIPAY" (by decide)).2]; rfl
  · rw [(identify_jsx_event_key_non_worklet "bar" "WEAPP" (by decide)).2]; rfl

/-- One step of suffix stripping on the reversed list. -/
theorem strip_worklet_rev_cons (rest : List Char) :
    strip_worklet_rev ('t' :: 'e' :: 'l' :: 'k' :: 'r' :: 'o' :: 'W' :: rest) =
      strip_worklet_rev rest := rfl

/-- When the reversed pattern is not a prefix, stripping is the identity. -/
theorem strip_worklet_rev_fixed (l : List Char)
    (h : worklet_chars_rev.isPrefixOf l = false) : strip_worklet_rev l = l := by
  rw [strip_worklet_rev.eq_def]
  split
  · rename_i rest
    have htrue : worklet_chars_rev.isPrefixOf
        ('t' :: 'e' :: 'l' :: 'k' :: 'r' :: 'o' :: 'W' :: rest) = true := by
      rw [List.isPrefixOf_iff_prefix]
      exact ⟨rest, rfl⟩
    rw [htrue] at h
    cases h
  · rfl

/-- Stripping removes some number of pattern copies from the front of the
reversed list. -/
theorem strip_worklet_rev_decomp :
    ∀ (n : Nat) (l : List Char), l.length ≤ n →
      ∃ k : Nat, l = (List.replicate k worklet_chars_rev).flatten ++ strip_worklet_rev l := by
  intro n
  induction n with
  | zero =>
    intro l hl
    have : l = [] := List.eq_nil_of_length_eq_zero (by omega)
    subst this
    exact ⟨0, rfl⟩
  | succ n ih =>
    intro l hl
    by_cases h : worklet_chars_rev.isPrefixOf l = true
    · obtain ⟨t, ht⟩ := List.isPrefixOf_iff_prefix.mp h
      have hstrip : strip_worklet_rev l = strip_worklet_rev t := by
        rw [← ht]; rfl
      have hlen : t.length ≤ n := by
        have := congrArg List.length ht
        simp [worklet_chars_rev] at this
        omega
      obtain ⟨k, hk⟩ := ih t hlen
      refine ⟨k + 1, ?_⟩
      rw [List.replicate_succ, List.flatten_cons, hstrip, List.append_assoc, ← hk, ht]
    · rw [Bool.not_eq_true] at h
      refine ⟨0, ?_⟩
      simp [strip_worklet_rev_fixed l h]

/-- After stripping, no copy of the reversed pattern remains in front. -/
theorem strip_worklet_rev_stripped :
    ∀ (n : Nat) (l : List Char), l.length ≤ n →
      worklet_chars_rev.isPrefixOf (strip_worklet_rev l) = false := by
  intro n
  induction n with
  | zero =>
    intro l hl
    have : l = [] := List.eq_nil_of_length_eq_zero (by omega)
    subst this
    rfl
  | succ n ih =>
    intro l hl
    by_cases h : worklet_chars_rev.isPrefixOf l = true
    · obtain ⟨t, ht⟩ := List.isPrefixOf_iff_prefix.mp h
      have hstrip : strip_worklet_rev l = strip_worklet_rev t := by
        rw [← ht]; rfl
      have hlen : t.length ≤ n := by
        have := congrArg List.length ht
        simp [worklet_chars_rev] at this
        omega
      rw [hstrip]
      exact ih t hlen
    · rw [Bool.not_eq_true] at h
      rw [strip_worklet_rev_fixed l h]
      exact h

/-- Copies of the pattern commute with their own concatenation. -/
theorem rep_flatten_comm (a : List Char) :
    ∀ k : Nat, a ++ (List.replicate k a).flatten = (List.replicate k a).flatten ++ a := by
  intro k
  induction k with
  | zero => simp
  | succ k ih =>
    rw [List.replicate_succ, List.flatten_cons]
    calc a ++ (a ++ (List.replicate k a).flatten)
        = a ++ ((List.replicate k a).flatten ++ a) := by rw [ih]
      _ = (a ++ (List.replicate k a).flatten) ++ a := (List.append_assoc _ _ _).symm

/-- Reversal of concatenated reversed-pattern copies. -/
theorem rep_flatten_reverse :
    ∀ k : Nat, ((List.replicate k worklet_chars_rev).flatten).reverse =
      (List.replicate k worklet_chars).flatten := by
  intro k
  induction k with
  | zero => rfl
  | succ k ih =>
    rw [List.replicate_succ, List.flatten_cons, List.reverse_append, ih]
    have hrev : worklet_chars_rev.reverse = worklet_chars := rfl
    rw [hrev, List.replicate_succ, List.flatten_cons]
    exact (rep_flatten_comm worklet_chars k).symm

/-- Counterexample to C5 as stated: on `onWorkletWorklet` the code strips
both trailing `Worklet` copies (Rust `trim_end_matches` removes the suffix
repeatedly), producing `worklet:on`; stripping a single suffix as the claim
describes would leave the remainder `onWorklet`, which starts with `on`, and
would produce `worklet:onworklet`. -/
theorem identify_jsx_event_key_worklet_cex :
    identify_jsx_event_key "onWorkletWorklet" "WEAPP" = some "worklet:on" ∧
    identify_jsx_event_key "onWorkletWorklet" "WEAPP" ≠ some "worklet:onworklet" := by
  have h0 : identify_jsx_event_key "onWorkletWorklet" "WEAPP" = some "worklet:on" := rfl
  refine ⟨h0, ?_⟩
  intro h
  have hs : ("worklet:on" : String) = "worklet:onworklet" :=
    Option.some.inj (h0.symm.trans h)
  exact absurd hs (by decide)

/-- C5 (amended): for every key ending in `Worklet`, the code strips all
trailing repetitions of the suffix (at least one), leaving a remainder with
no trailing `Worklet`; the result is `worklet:` followed by the remainder
lower-cased verbatim when the remainder starts with `on`, and by the
kebab-cased remainder otherwise. -/
theorem identify_jsx_event_key_worklet (val platform : String)
    (hw : ends_with_worklet val = true) :
    (∃ k : Nat, 1 ≤ k ∧
      val.data = (trim_end_matches_worklet val).data ++ worklet_copies k) ∧
    ends_with_worklet (trim_end_matches_worklet val) = false ∧
    identify_jsx_event_key val platform =
      some ("worklet:" ++
        (if starts_with_on (trim_end_matches_worklet val) then
          lower_str (trim_end_matches_worklet val)
        else to_kebab_case (trim_end_matches_worklet val))) := by
  have hfix : (trim_end_matches_worklet val).data = (strip_worklet_rev val.data.reverse).reverse :=
    rfl
  have hnop := strip_worklet_rev_stripped val.data.reverse.length val.data.reverse le_rfl
  refine ⟨?_, ?_, ?_⟩
  · obtain ⟨k, hk⟩ :=
      strip_worklet_rev_decomp val.data.reverse.length val.data.reverse le_rfl
    refine ⟨k, ?_, ?_⟩
    · rcases Nat.eq_zero_or_pos k with hk0 | hk1
      · exfalso
        subst hk0
        simp only [List.replicate, List.flatten_nil, List.nil_append] at hk
        rw [← hk] at hnop
        have hw2 : worklet_chars_rev.isPrefixOf val.data.reverse = true := hw
        rw [hw2] at hnop
        cases hnop
      · exact hk1
    · have hrv := congrArg List.reverse hk
      rw [List.reverse_reverse, List.reverse_append, rep_flatten_reverse] at hrv
      rw [hrv, hfix, worklet_copies]
  · show worklet_chars_rev.isPrefixOf (trim_end_matches_worklet val).data.reverse = false
    rw [hfix, List.reverse_reverse]
    exact hnop
  · unfold identify_jsx_event_key
    rw [hw]
    by_cases hs : starts_with_on (trim_end_matches_worklet val) = true <;> simp [hs]

/-- Witness for C5 at the two worklet keys named by the claim. -/
theorem identify_jsx_event_key_worklet_witness :
    identify_jsx_event_key "onScrollUpdateWorklet" "WEAPP" = some "worklet:onscrollupdate" ∧
    identify_jsx_event_key "shouldResponseOnMoveWorklet" "WEAPP" =
      some "worklet:should-response-on-move" := by
  constructor
  · rw [(identify_jsx_event_key_worklet "onScrollUpdateWorklet" "WEAPP" (by decide)).2.2]
    rfl
  · rw [(identify_jsx_event_key_worklet "shouldResponseOnMoveWorklet" "WEAPP" (by decide)).2.2]
    rfl

/-! ### Text normalization (claim C7) -/

/-- Characters survive leading trimming. -/
theorem mem_trim_start (l : List Char) (c : Char) (h : c ∈ trim_start_chars l) : c ∈ l :=
  (List.dropWhile_sublist _).mem h

/-- Characters survive trailing trimming. -/
theorem mem_trim_end (l : List Char) (c : Char) (h : c ∈ trim_end_chars l) : c ∈ l := by
  unfold trim_end_chars at h
  rw [List.mem_reverse] at h
  have h2 := (List.dropWhile_sublist _).mem h
  rwa [List.mem_reverse] at h2

/-- Every character of every produced line comes from the accumulator or the
remaining input, and no line contains a newline. -/
theorem rust_lines_aux_chars (rest : List Char) :
    ∀ cur : List Char, '\n' ∉ cur →
      ∀ line ∈ rust_lines_aux cur rest, ∀ c ∈ line, (c ∈ cur ∨ c ∈ rest) ∧ c ≠ '\n' := by
  induction rest with
  | nil =>
    intro cur hcur line hline c hc
    unfold rust_lines_aux at hline
    by_cases he : cur.isEmpty = true
    · rw [if_pos he] at hline
      cases hline
    · rw [if_neg he] at hline
      rw [List.mem_singleton] at hline
      subst hline
      rw [List.mem_reverse] at hc
      exact ⟨Or.inl hc, fun hne => hcur (hne ▸ hc)⟩
  | cons d ds ih =>
    intro cur hcur line hline c hc
    unfold rust_lines_aux at hline
    by_cases hd : d = '\n'
    · rw [if_pos hd] at hline
      rcases List.mem_cons.mp hline with hhead | htail
      · subst hhead
        rw [List.mem_reverse] at hc
        have hcin : c ∈ cur := by
          by_cases hr : cur.head? = some '\r'
          · rw [if_pos hr] at hc
            exact List.mem_of_mem_tail hc
          · rw [if_neg hr] at hc
            exact hc
        exact ⟨Or.inl hcin, fun hne => hcur (hne ▸ hcin)⟩
      · have := ih [] (by simp) line htail c hc
        rcases this with ⟨hor, hne⟩
        rcases hor with hnil | hds
        · cases hnil
        · exact ⟨Or.inr (List.mem_cons_of_mem d hds), hne⟩
    · rw [if_neg hd] at hline
      have hcur2 : '\n' ∉ d :: cur := by
        intro hmem
        rcases List.mem_cons.mp hmem with h1 | h2
        · exact hd h1.symm
        · exact hcur h2
      have := ih (d :: cur) hcur2 line hline c hc
      rcases this with ⟨hor, hne⟩
      refine ⟨?_, hne⟩
      rcases hor with hm | hds
      · rcases List.mem_cons.mp hm with h1 | h2
        · exact Or.inr (h1 ▸ List.mem_cons_self d ds)
        · exact Or.inl h2
      · exact Or.inr (List.mem_cons_of_mem d hds)

/-- Characters of the optionally-separated concatenation satisfy a
predicate that holds of the space, the accumulator and the line. -/
theorem mem_sep_append (P : Char → Prop) (hsp : P ' ') (acc line : List Char)
    (cond : Prop) [Decidable cond]
    (hacc : ∀ c ∈ acc, P c) (hline : ∀ c ∈ line, P c) :
    ∀ c ∈ ((if cond then acc ++ [' '] else acc) ++ line), P c := by
  intro c hc
  rcases List.mem_append.mp hc with h1 | h2
  · split at h1
    · rcases List.mem_append.mp h1 with ha | hs
      · exact hacc c ha
      · rw [List.mem_singleton] at hs
        exact hs ▸ hsp
    · exact hacc c h1
  · exact hline c h2

/-- The join preserves any character predicate that holds of the space
character, the accumulator, and every line. -/
theorem jsx_join_chars (P : Char → Prop) (hsp : P ' ') :
    ∀ (lines : List (List Char)) (acc : List Char) (idx : Nat),
      (∀ c ∈ acc, P c) → (∀ line ∈ lines, ∀ c ∈ line, P c) →
      ∀ c ∈ jsx_join acc idx lines, P c := by
  intro lines
  induction lines with
  | nil =>
    intro acc idx hacc _ c hc
    exact hacc c hc
  | cons line rest ih =>
    intro acc idx hacc hlines c hc
    have hline1 : ∀ x ∈ (if idx = 0 then line else trim_start_chars line), P x := by
      intro x hx
      by_cases h0 : idx = 0
      · rw [if_pos h0] at hx
        exact hlines line (List.mem_cons_self _ _) x hx
      · rw [if_neg h0] at hx
        exact hlines line (List.mem_cons_self _ _) x (mem_trim_start _ _ hx)
    cases rest with
    | nil =>
      simp only [jsx_join] at hc
      exact mem_sep_append P hsp acc _ _ hacc hline1 c hc
    | cons line2 rest2 =>
      simp only [jsx_join] at hc
      have hline2 : ∀ x ∈ trim_end_chars (if idx = 0 then line else trim_start_chars line),
          P x := fun x hx => hline1 x (mem_trim_end _ _ hx)
      refine ih _ (idx + 1) ?_ ?_ c hc
      · exact mem_sep_append P hsp acc _ _ hacc hline2
      · intro l hl x hx
        exact hlines l (List.mem_cons_of_mem _ hl) x hx

/-- Tab replacement leaves no tab behind. -/
theorem replace_tab_no_tab (l : List Char) (c : Char) (hc : c ∈ replace_tab_with_space l) :
    c ≠ '\t' := by
  unfold replace_tab_with_space at hc
  rw [List.mem_map] at hc
  obtain ⟨a, _, ha⟩ := hc
  subst ha
  by_cases h : a = '\t' <;> simp [h]

/-- The normalized text contains neither newline nor tab. -/
theorem jsx_text_core_chars (l : List Char) :
    ∀ c ∈ jsx_text_core l, c ≠ '\n' ∧ c ≠ '\t' := by
  intro c hc
  unfold jsx_text_core rust_lines at hc
  refine jsx_join_chars (fun c => c ≠ '\n' ∧ c ≠ '\t') (by decide) _ [] 0 (by simp) ?_ c hc
  intro line hline x hx
  have h := rust_lines_aux_chars (replace_tab_with_space l) [] (by simp) line hline x hx
  rcases h with ⟨hor, hne⟩
  refine ⟨hne, ?_⟩
  rcases hor with hnil | hmem
  · cases hnil
  · exact replace_tab_no_tab l x hmem

/-- Splitting a newline-free text yields the text itself as its only line
(or no line at all when the text is empty). -/
theorem rust_lines_aux_no_newline (rest : List Char) :
    ∀ cur : List Char, '\n' ∉ rest →
      rust_lines_aux cur rest =
        if cur = [] ∧ rest = [] then [] else [cur.reverse ++ rest] := by
  induction rest with
  | nil =>
    intro cur _
    unfold rust_lines_aux
    cases cur with
    | nil => simp
    | cons c cs => simp
  | cons d ds ih =>
    intro cur hrest
    have hd : ¬d = '\n' := fun h => hrest (h ▸ List.mem_cons_self d ds)
    unfold rust_lines_aux
    rw [if_neg hd]
    rw [ih (d :: cur) (fun h => hrest (List.mem_cons_of_mem d h))]
    have hne : ¬(d :: cur = [] ∧ ds = []) := by
      intro h
      cases h.1
    rw [if_neg hne, if_neg (by intro h; cases h.2)]
    simp [List.append_assoc]

/-- Normalization is the identity on a text with no newline and no tab. -/
theorem jsx_text_core_fixed (l : List Char) (hn : '\n' ∉ l) (ht : '\t' ∉ l) :
    jsx_text_core l = l := by
  unfold jsx_text_core rust_lines
  have hrep : replace_tab_with_space l = l := by
    unfold replace_tab_with_space
    have := List.map_congr_left (l := l) (f := fun c => if c = '\t' then ' ' else c) (g := id)
      (fun a ha => by
        have : ¬a = '\t' := fun h => ht (h ▸ ha)
        simp [this])
    rw [this, List.map_id]
  rw [hrep, rust_lines_aux_no_newline l [] hn]
  cases l with
  | nil => rfl
  | cons c cs =>
    rw [if_neg (by intro h; cases h.2)]
    simp [jsx_join]

/-- C7: text normalization is idempotent — applying `jsx_text_to_string` to
its own output returns that output unchanged, for every input string. -/
theorem jsx_text_to_string_idempotent (s : String) :
    jsx_text_to_string (jsx_text_to_string s) = jsx_text_to_string s := by
  show (⟨jsx_text_core (jsx_text_core s.data)⟩ : String) = ⟨jsx_text_core s.data⟩
  have hn : '\n' ∉ jsx_text_core s.data := fun h => (jsx_text_core_chars s.data _ h).1 rfl
  have ht : '\t' ∉ jsx_text_core s.data := fun h => (jsx_text_core_chars s.data _ h).2 rfl
  rw [jsx_text_core_fixed _ hn ht]

/-! ### Naming service (claim C8) -/

/-- Concatenation of strings concatenates the character lists. -/
theorem string_data_append (a b : String) : (a ++ b).data = a.data ++ b.data := by
  cases a; cases b; rfl

/-- The fueled digit rendering agrees with `Nat.digits` below `10 ^ fuel`. -/
theorem nat_digit_chars_aux_eq :
    ∀ (fuel n : Nat), n < 10 ^ fuel →
      nat_digit_chars_aux fuel n = ((Nat.digits 10 n).map Nat.digitChar).reverse := by
  intro fuel
  induction fuel with
  | zero =>
    intro n hn
    have : n = 0 := by simpa using hn
    subst this
    simp [nat_digit_chars_aux]
  | succ fuel ih =>
    intro n hn
    by_cases h0 : n = 0
    · subst h0
      simp [nat_digit_chars_aux]
    · have hdiv : n / 10 < 10 ^ fuel := by
        rw [Nat.div_lt_iff_lt_mul (by norm_num)]
        calc n < 10 ^ (fuel + 1) := hn
          _ = 10 ^ fuel * 10 := by ring
      have hrec := ih (n / 10) hdiv
      rw [show nat_digit_chars_aux (fuel + 1) n =
          nat_digit_chars_aux fuel (n / 10) ++ [Nat.digitChar (n % 10)] by
        simp [nat_digit_chars_aux, h0]]
      rw [hrec, Nat.digits_def' (by norm_num : (1 : Nat) < 10) (Nat.pos_of_ne_zero h0)]
      simp

/-- The digit character map is injective on single digits. -/
theorem digitChar_inj : ∀ a < 10, ∀ b < 10, Nat.digitChar a = Nat.digitChar b → a = b := by
  decide

/-- The digit character map is injective on digit lists. -/
theorem map_digitChar_inj :
    ∀ (l1 l2 : List Nat), (∀ a ∈ l1, a < 10) → (∀ a ∈ l2, a < 10) →
      l1.map Nat.digitChar = l2.map Nat.digitChar → l1 = l2 := by
  intro l1
  induction l1 with
  | nil =>
    intro l2 _ _ h
    cases l2 with
    | nil => rfl
    | cons b bs => cases h
  | cons a as ih =>
    intro l2 h1 h2 h
    cases l2 with
    | nil => cases h
    | cons b bs =>
      simp only [List.map_cons, List.cons.injEq] at h
      have ha : a = b := digitChar_inj a (h1 a (List.mem_cons_self _ _)) b
        (h2 b (List.mem_cons_self _ _)) h.1
      have hs : as = bs := ih bs (fun x hx => h1 x (List.mem_cons_of_mem _ hx))
        (fun x hx => h2 x (List.mem_cons_of_mem _ hx)) h.2
      rw [ha, hs]

/-- Unfolding of the decimal rendering for a nonzero in-range number. -/
theorem nat_to_chars_eq_digits (n : Nat) (hn : n < 1000000000000000) (h0 : n ≠ 0) :
    nat_to_chars n = ((Nat.digits 10 n).map Nat.digitChar).reverse := by
  unfold nat_to_chars
  rw [if_neg h0]
  exact nat_digit_chars_aux_eq 15 n (lt_of_lt_of_le hn (by norm_num))

/-- Decimal rendering is injective below the fuel bound. -/
theorem nat_to_chars_inj (n m : Nat) (hn : n < 1000000000000000) (hm : m < 1000000000000000)
    (h : nat_to_chars n = nat_to_chars m) : n = m := by
  unfold nat_to_chars at h
  by_cases h0 : n = 0 <;> by_cases h1 : m = 0
  · rw [h0, h1]
  · exfalso
    rw [if_pos h0, if_neg h1,
      nat_digit_chars_aux_eq 15 m (lt_of_lt_of_le hm (by norm_num))] at h
    have h2 : (Nat.digits 10 m).map Nat.digitChar = ['0'] := by
      have := congrArg List.reverse h
      simpa using this.symm
    cases hdm : Nat.digits 10 m with
    | nil => rw [hdm] at h2; cases h2
    | cons d rest =>
      rw [hdm] at h2
      simp only [List.map_cons, List.cons.injEq, List.map_eq_nil_iff] at h2
      have hd10 : d < 10 := Nat.digits_lt_base (by norm_num) (hdm ▸ List.mem_cons_self d rest)
      have hd0 : d = 0 := digitChar_inj d hd10 0 (by norm_num) (by simpa using h2.1)
      have : m = Nat.ofDigits 10 (Nat.digits 10 m) := (Nat.ofDigits_digits 10 m).symm
      rw [hdm, hd0, h2.2] at this
      simp [Nat.ofDigits] at this
      exact h1 this
  · exfalso
    rw [if_neg h0, if_pos h1,
      nat_digit_chars_aux_eq 15 n (lt_of_lt_of_le hn (by norm_num))] at h
    have h2 : (Nat.digits 10 n).map Nat.digitChar = ['0'] := by
      have := congrArg List.reverse h
      simpa using this
    cases hdm : Nat.digits 10 n with
    | nil => rw [hdm] at h2; cases h2
    | cons d rest =>
      rw [hdm] at h2
      simp only [List.map_cons, List.cons.injEq, List.map_eq_nil_iff] at h2
      have hd10 : d < 10 := Nat.digits_lt_base (by norm_num) (hdm ▸ List.mem_cons_self d rest)
      have hd0 : d = 0 := digitChar_inj d hd10 0 (by norm_num) (by simpa using h2.1)
      have : n = Nat.ofDigits 10 (Nat.digits 10 n) := (Nat.ofDigits_digits 10 n).symm
      rw [hdm, hd0, h2.2] at this
      simp [Nat.ofDigits] at this
      exact h0 this
  · rw [if_neg h0, if_neg h1, nat_digit_chars_aux_eq 15 n (lt_of_lt_of_le hn (by norm_num)),
      nat_digit_chars_aux_eq 15 m (lt_of_lt_of_le hm (by norm_num))] at h
    rw [List.reverse_inj] at h
    have := map_digitChar_inj _ _
      (fun a ha => Nat.digits_lt_base (by norm_num) ha)
      (fun a ha => Nat.digits_lt_base (by norm_num) ha) h
    exact Nat.digits_inj_iff.mp this

/-- Decimal digit renderings never contain the minus sign. -/
theorem nat_to_chars_no_dash (n : Nat) (hn : n < 1000000000000000) : '-' ∉ nat_to_chars n := by
  unfold nat_to_chars
  by_cases h0 : n = 0
  · rw [if_pos h0]
    decide
  · rw [if_neg h0, nat_digit_chars_aux_eq 15 n (lt_of_lt_of_le hn (by norm_num))]
    intro hmem
    rw [List.mem_reverse, List.mem_map] at hmem
    obtain ⟨d, hd, hdc⟩ := hmem
    have hd10 : d < 10 := Nat.digits_lt_base (by norm_num) hd
    have hall : ∀ e < 10, Nat.digitChar e ≠ '-' := by decide
    exact hall d hd10 hdc

/-- Integer decimal rendering is injective on integers of bounded
magnitude. -/
theorem int_to_chars_inj (i j : Int) (hi : i.natAbs < 1000000000000000)
    (hj : j.natAbs < 1000000000000000)
    (h : int_to_chars i = int_to_chars j) : i = j := by
  unfold int_to_chars at h
  by_cases h0 : i < 0 <;> by_cases h1 : j < 0
  · rw [if_pos h0, if_pos h1] at h
    simp only [List.cons.injEq, true_and] at h
    have hn : (-i).toNat = (-j).toNat := nat_to_chars_inj _ _ (by omega) (by omega) h
    omega
  · exfalso
    rw [if_pos h0, if_neg h1] at h
    have : '-' ∈ nat_to_chars j.toNat := h ▸ List.mem_cons_self _ _
    exact nat_to_chars_no_dash j.toNat (by omega) this
  · exfalso
    rw [if_neg h0, if_pos h1] at h
    have : '-' ∈ nat_to_chars i.toNat := h.symm ▸ List.mem_cons_self _ _
    exact nat_to_chars_no_dash i.toNat (by omega) this
  · rw [if_neg h0, if_neg h1] at h
    have hn : i.toNat = j.toNat := nat_to_chars_inj _ _ (by omega) (by omega) h
    omega

/-- Wrapping is stable under a pre-wrapped summand. -/
theorem wrap_i32_cong (x : Int) : wrap_i32 (wrap_i32 x + 1) = wrap_i32 (x + 1) := by
  unfold wrap_i32
  omega

/-- The wrapped value lies in the `i32` range. -/
theorem wrap_i32_bounds (x : Int) :
    -2147483648 ≤ wrap_i32 x ∧ wrap_i32 x < 2147483648 := by
  unfold wrap_i32
  omega

/-- The prefix string never changes. -/
theorem iter_state_str (s : String) : ∀ n, (iter_state s n).str = s := by
  intro n
  induction n with
  | zero => rfl
  | succ n ih =>
    show (iter_state s n).str = s
    exact ih

/-- The counter after `n` calls is the wrapped value of `n - 1`. -/
theorem iter_state_count (s : String) : ∀ n : Nat, (iter_state s n).count = wrap_i32 (n - 1) := by
  intro n
  induction n with
  | zero =>
    show (-1 : Int) = wrap_i32 ((0 : Nat) - 1)
    unfold wrap_i32
    norm_num
  | succ n ih =>
    show wrap_i32 ((iter_state s n).count + 1) = wrap_i32 ((n + 1 : Nat) - 1)
    rw [ih, wrap_i32_cong]
    congr 1
    push_cast
    ring

/-- Closed form of the `n`-th output. -/
theorem nth_output_eq (s : String) (n : Nat) :
    nth_output s n = s ++ int_to_string (wrap_i32 n) := by
  show (iter_state s n).str ++ int_to_string (wrap_i32 ((iter_state s n).count + 1)) =
    s ++ int_to_string (wrap_i32 n)
  rw [iter_state_str, iter_state_count, wrap_i32_cong]
  have harith : ((n : Int) - 1 + 1) = (n : Int) := by ring
  rw [harith]

/-- Characters of the rendered integer string. -/
theorem int_to_string_data (x : Int) : (int_to_string x).data = int_to_chars x := rfl

/-- Closed form of the `n`-th output, at the character level. -/
theorem nth_output_data (s : String) (n : Nat) :
    (nth_output s n).data = s.data ++ int_to_chars (wrap_i32 n) := by
  rw [nth_output_eq, string_data_append, int_to_string_data]

/-- Counterexample to C8 as stated: at call index 2^31 the `i32` counter
wraps, and the output is the prefix followed by `-2147483648` instead of the
claimed prefix followed by the call index. -/
theorem named_iter_wrap_cex :
    nth_output "n" 2147483648 = "n-2147483648" ∧
    ("n-2147483648" : String) ≠ "n2147483648" := by
  constructor
  · rw [nth_output_eq]
    have h1 : wrap_i32 ((2147483648 : Nat) : Int) = -2147483648 := by
      unfold wrap_i32
      norm_num
    rw [h1]
    rfl
  · decide

/-- C8 (amended): outputs follow the scheme prefix-then-index for the first
2^31 calls and are pairwise distinct over the first 2^32 calls — the
deterministic scheme actually produced is prefix plus the decimal rendering
of the `i32`-wrapped index, so outputs repeat with period 2^32; the counter
is incremented (with wraparound) exactly once per call. -/
theorem named_iter_claim (s : String) (i j : Nat) :
    (i < 2147483648 → nth_output s i = s ++ int_to_string i) ∧
    (i < 4294967296 → j < 4294967296 → i ≠ j → nth_output s i ≠ nth_output s j) ∧
    (iter_state s (i + 1)).count = wrap_i32 ((iter_state s i).count + 1) := by
  refine ⟨?_, ?_, rfl⟩
  · intro hi
    rw [nth_output_eq]
    have : wrap_i32 i = i := by
      unfold wrap_i32
      omega
    rw [this]
  · intro hi hj hne h
    have hdata := congrArg String.data h
    rw [nth_output_data, nth_output_data] at hdata
    have hchars : int_to_chars (wrap_i32 (i : Int)) = int_to_chars (wrap_i32 (j : Int)) :=
      List.append_cancel_left hdata
    have hwi := wrap_i32_bounds (i : Int)
    have hwj := wrap_i32_bounds (j : Int)
    have hb1 : (wrap_i32 (i : Int)).natAbs < 1000000000000000 := by omega
    have hb2 : (wrap_i32 (j : Int)).natAbs < 1000000000000000 := by omega
    have hw := int_to_chars_inj _ _ hb1 hb2 hchars
    have hij : (i : Int) = (j : Int) := by
      unfold wrap_i32 at hw
      omega
    exact hne (by exact_mod_cast hij)

/-- Witness for C8 at prefix `n` and call indices 2 and 3. -/
theorem named_iter_claim_witness :
    nth_output "n" 2 = "n2" ∧ nth_output "n" 2 ≠ nth_output "n" 3 := by
  have h := named_iter_claim "n" 2 3
  constructor
  · rw [h.1 (by norm_num)]
    rfl
  · exact h.2.1 (by norm_num) (by norm_num) (by norm_num)

/-! ### Static / dynamic classifier (claim C9) -/

mutual

/-- No traversal hit in an expression refutes containment. -/
theorem not_ec_expr : ∀ e : Expr, has_jsx_expr_expr e = false → ¬ ECInExpr e
  | .member obj prop, h => fun hec => by
    cases hec with
    | member _ _ hin =>
      exact not_ec_expr obj (by simpa [has_jsx_expr_expr] using h) hin
  | .ident _, _ => fun hec => nomatch hec
  | .lit _, _ => fun hec => nomatch hec
  | .paren inner, h => fun hec => by
    cases hec with
    | paren _ hin =>
      exact not_ec_expr inner (by simpa [has_jsx_expr_expr] using h) hin
  | .fnExpr none, _ => fun hec => nomatch hec
  | .fnExpr (some stmts), h => fun hec => by
    cases hec with
    | fnBody _ s hs hin =>
      exact not_ec_stmts stmts (by simpa [has_jsx_expr_expr] using h) s hs hin
  | .arrow (.blockStmt stmts), h => fun hec => by
    cases hec with
    | arrowBlock _ s hs hin =>
      exact not_ec_stmts stmts (by simpa [has_jsx_expr_expr] using h) s hs hin
  | .arrow (.expr e), h => fun hec => by
    cases hec with
    | arrowExpr _ hin =>
      exact not_ec_expr e (by simpa [has_jsx_expr_expr] using h) hin
  | .call callee args, h => fun hec => by
    have h2 : has_jsx_expr_expr callee = false ∧ has_jsx_expr_args args = false := by
      simpa [has_jsx_expr_expr, Bool.or_eq_false_iff] using h
    cases hec with
    | callCallee _ _ hin => exact not_ec_expr callee h2.1 hin
    | callArg _ _ spread e ha hin => exact not_ec_args args h2.2 spread e ha hin
  | .jsxElement el, h => fun hec => by
    cases hec with
    | jsxEl _ hin =>
      exact not_ec_element el (by simpa [has_jsx_expr_expr] using h) hin
  | .jsxFragment (.mk children), h => fun hec => by
    cases hec with
    | jsxFrag _ c hc hin =>
      exact not_ec_children children (by simpa [has_jsx_expr_expr] using h) c hc hin
  | .other, _ => fun hec => nomatch hec
termination_by e _ => sizeOf e

/-- No traversal hit in an argument list refutes containment in any
argument. -/
theorem not_ec_args : ∀ args : List ExprOrSpread, has_jsx_expr_args args = false →
    ∀ (spread : Bool) (e : Expr), ExprOrSpread.mk spread e ∈ args → ¬ ECInExpr e
  | [], _ => fun _ e hmem => absurd hmem (List.not_mem_nil _)
  | .mk sp ex :: rest, h => fun spread e hmem hec => by
    have h2 : has_jsx_expr_expr ex = false ∧ has_jsx_expr_args rest = false := by
      simpa [has_jsx_expr_args, Bool.or_eq_false_iff] using h
    rcases List.mem_cons.mp hmem with h1 | hmem2
    · have he : e = ex := by injection h1 with hsp he
      exact not_ec_expr ex h2.1 (he ▸ hec)
    · exact not_ec_args rest h2.2 spread e hmem2 hec
termination_by args _ => sizeOf args

/-- No traversal hit in a statement refutes containment. -/
theorem not_ec_stmt : ∀ s : Stmt, has_jsx_expr_stmt s = false → ¬ ECInStmt s
  | .ret (some e), h => fun hec => by
    cases hec with
    | ret _ hin =>
      exact not_ec_expr e (by simpa [has_jsx_expr_stmt] using h) hin
  | .ret none, _ => fun hec => nomatch hec
  | .other, _ => fun hec => nomatch hec
termination_by s _ => sizeOf s

/-- No traversal hit in a statement list refutes containment in any
statement. -/
theorem not_ec_stmts : ∀ stmts : List Stmt, has_jsx_expr_stmts stmts = false →
    ∀ s ∈ stmts, ¬ ECInStmt s
  | [], _ => fun _ hmem => absurd hmem (List.not_mem_nil _)
  | a :: rest, h => fun s hmem hec => by
    have h2 : has_jsx_expr_stmt a = false ∧ has_jsx_expr_stmts rest = false := by
      simpa [has_jsx_expr_stmts, Bool.or_eq_false_iff] using h
    rcases List.mem_cons.mp hmem with h1 | hmem2
    · exact not_ec_stmt a h2.1 (h1 ▸ hec)
    · exact not_ec_stmts rest h2.2 s hmem2 hec
termination_by stmts _ => sizeOf stmts

/-- No traversal hit in an attribute refutes containment. -/
theorem not_ec_attr : ∀ a : JSXAttrOrSpread, has_jsx_expr_attr a = false → ¬ ECInAttr a
  | .jsxAttr (.mk name (some (.lit _))), _ => fun hec => nomatch hec
  | .jsxAttr (.mk name (some (.jsxExprContainer c))), h => fun _ => by
    simp [has_jsx_expr_attr, has_jsx_expr_attr_value] at h
  | .jsxAttr (.mk name (some .other)), _ => fun hec => nomatch hec
  | .jsxAttr (.mk name none), _ => fun hec => nomatch hec
  | .spreadElement e, h => fun hec => by
    cases hec with
    | spread _ hin =>
      exact not_ec_expr e (by simpa [has_jsx_expr_attr] using h) hin
termination_by a _ => sizeOf a

/-- No traversal hit in an attribute list refutes containment in any
attribute. -/
theorem not_ec_attrs : ∀ attrs : List JSXAttrOrSpread, has_jsx_expr_attrs attrs = false →
    ∀ a ∈ attrs, ¬ ECInAttr a
  | [], _ => fun _ hmem => absurd hmem (List.not_mem_nil _)
  | b :: rest, h => fun a hmem hec => by
    have h2 : has_jsx_expr_attr b = false ∧ has_jsx_expr_attrs rest = false := by
      simpa [has_jsx_expr_attrs, Bool.or_eq_false_iff] using h
    rcases List.mem_cons.mp hmem with h1 | hmem2
    · exact not_ec_attr b h2.1 (h1 ▸ hec)
    · exact not_ec_attrs rest h2.2 a hmem2 hec
termination_by attrs _ => sizeOf attrs

/-- No traversal hit in an element refutes containment. -/
theorem not_ec_element : ∀ el : JSXElement, has_jsx_expr_element el = false → ¬ ECInElement el
  | .mk (.mk name attrs sc) children closing, h => fun hec => by
    have h2 : has_jsx_expr_attrs attrs = false ∧ has_jsx_expr_children children = false := by
      simpa [has_jsx_expr_element, Bool.or_eq_false_iff] using h
    cases hec with
    | attr _ _ _ _ _ a ha hin => exact not_ec_attrs attrs h2.1 a ha hin
    | child _ _ _ _ _ c hc hin => exact not_ec_children children h2.2 c hc hin
termination_by el _ => sizeOf el

/-- No traversal hit in a child refutes containment. -/
theorem not_ec_child : ∀ c : JSXElementChild, has_jsx_expr_child c = false → ¬ ECInChild c
  | .jsxText _, _ => fun hec => nomatch hec
  | .jsxExprContainer c, h => fun _ => by
    simp [has_jsx_expr_child] at h
  | .jsxElement el, h => fun hec => by
    cases hec with
    | element _ hin =>
      exact not_ec_element el (by simpa [has_jsx_expr_child] using h) hin
  | .jsxFragment (.mk children), h => fun hec => by
    cases hec with
    | fragment _ c hc hin =>
      exact not_ec_children children (by simpa [has_jsx_expr_child] using h) c hc hin
  | .other, _ => fun hec => nomatch hec
termination_by c _ => sizeOf c

/-- No traversal hit in a child list refutes containment in any child. -/
theorem not_ec_children : ∀ children : List JSXElementChild,
    has_jsx_expr_children children = false → ∀ c ∈ children, ¬ ECInChild c
  | [], _ => fun _ hmem => absurd hmem (List.not_mem_nil _)
  | b :: rest, h => fun c hmem hec => by
    have h2 : has_jsx_expr_child b = false ∧ has_jsx_expr_children rest = false := by
      simpa [has_jsx_expr_children, Bool.or_eq_false_iff] using h
    rcases List.mem_cons.mp hmem with h1 | hmem2
    · exact not_ec_child b h2.1 (h1 ▸ hec)
    · exact not_ec_children rest h2.2 c hmem2 hec
termination_by children _ => sizeOf children

end

mutual

/-- A traversal hit in an expression yields a containment derivation. -/
theorem ec_of_has_expr : ∀ e : Expr, has_jsx_expr_expr e = true → ECInExpr e
  | .member obj prop, h =>
    .member obj prop (ec_of_has_expr obj (by simpa [has_jsx_expr_expr] using h))
  | .ident _, h => absurd h (by simp [has_jsx_expr_expr])
  | .lit _, h => absurd h (by simp [has_jsx_expr_expr])
  | .paren inner, h =>
    .paren inner (ec_of_has_expr inner (by simpa [has_jsx_expr_expr] using h))
  | .fnExpr none, h => absurd h (by simp [has_jsx_expr_expr])
  | .fnExpr (some stmts), h => by
    obtain ⟨s, hs, hstmt⟩ :=
      ec_of_has_stmts stmts (by simpa [has_jsx_expr_expr] using h)
    exact .fnBody stmts s hs hstmt
  | .arrow (.blockStmt stmts), h => by
    obtain ⟨s, hs, hstmt⟩ :=
      ec_of_has_stmts stmts (by simpa [has_jsx_expr_expr] using h)
    exact .arrowBlock stmts s hs hstmt
  | .arrow (.expr e), h =>
    .arrowExpr e (ec_of_has_expr e (by simpa [has_jsx_expr_expr] using h))
  | .call callee args, h => by
    have h2 : has_jsx_expr_expr callee = true ∨ has_jsx_expr_args args = true := by
      have := h
      simp only [has_jsx_expr_expr, Bool.or_eq_true] at this
      exact this
    rcases h2 with hc | ha
    · exact .callCallee callee args (ec_of_has_expr callee hc)
    · obtain ⟨spread, e, hmem, he⟩ := ec_of_has_args args ha
      exact .callArg callee args spread e hmem he
  | .jsxElement el, h =>
    .jsxEl el (ec_of_has_element el (by simpa [has_jsx_expr_expr] using h))
  | .jsxFragment (.mk children), h => by
    obtain ⟨c, hc, hchild⟩ :=
      ec_of_has_children children (by simpa [has_jsx_expr_expr] using h)
    exact .jsxFrag children c hc hchild
  | .other, h => absurd h (by simp [has_jsx_expr_expr])

/-- A traversal hit in an argument list yields a hit inside some argument. -/
theorem ec_of_has_args : ∀ args : List ExprOrSpread, has_jsx_expr_args args = true →
    ∃ (spread : Bool) (e : Expr), ExprOrSpread.mk spread e ∈ args ∧ ECInExpr e
  | [], h => absurd h (by simp [has_jsx_expr_args])
  | .mk sp e :: rest, h => by
    have h2 : has_jsx_expr_expr e = true ∨ has_jsx_expr_args rest = true := by
      simpa [has_jsx_expr_args, Bool.or_eq_true] using h
    rcases h2 with he | hr
    · exact ⟨sp, e, List.mem_cons_self _ _, ec_of_has_expr e he⟩
    · obtain ⟨sp2, e2, hmem, he2⟩ := ec_of_has_args rest hr
      exact ⟨sp2, e2, List.mem_cons_of_mem _ hmem, he2⟩

/-- A traversal hit in a statement yields a containment derivation. -/
theorem ec_of_has_stmt : ∀ s : Stmt, has_jsx_expr_stmt s = true → ECInStmt s
  | .ret (some e), h => .ret e (ec_of_has_expr e (by simpa [has_jsx_expr_stmt] using h))
  | .ret none, h => absurd h (by simp [has_jsx_expr_stmt])
  | .other, h => absurd h (by simp [has_jsx_expr_stmt])

/-- A traversal hit in a statement list yields a hit inside some statement. -/
theorem ec_of_has_stmts : ∀ stmts : List Stmt, has_jsx_expr_stmts stmts = true →
    ∃ s ∈ stmts, ECInStmt s
  | [], h => absurd h (by simp [has_jsx_expr_stmts])
  | s :: rest, h => by
    have h2 : has_jsx_expr_stmt s = true ∨ has_jsx_expr_stmts rest = true := by
      simpa [has_jsx_expr_stmts, Bool.or_eq_true] using h
    rcases h2 with hs | hr
    · exact ⟨s, List.mem_cons_self _ _, ec_of_has_stmt s hs⟩
    · obtain ⟨s2, hmem, hs2⟩ := ec_of_has_stmts rest hr
      exact ⟨s2, List.mem_cons_of_mem _ hmem, hs2⟩

/-- A traversal hit in an attribute yields a containment derivation. -/
theorem ec_of_has_attr : ∀ a : JSXAttrOrSpread, has_jsx_expr_attr a = true → ECInAttr a
  | .jsxAttr (.mk name (some (.lit _))), h => absurd h (by simp [has_jsx_expr_attr, has_jsx_expr_attr_value])
  | .jsxAttr (.mk name (some (.jsxExprContainer c))), _ => .value name c
  | .jsxAttr (.mk name (some .other)), h => absurd h (by simp [has_jsx_expr_attr, has_jsx_expr_attr_value])
  | .jsxAttr (.mk name none), h => absurd h (by simp [has_jsx_expr_attr])
  | .spreadElement e, h => .spread e (ec_of_has_expr e (by simpa [has_jsx_expr_attr] using h))

/-- A traversal hit in an attribute list yields a hit inside some attribute. -/
theorem ec_of_has_attrs : ∀ attrs : List JSXAttrOrSpread, has_jsx_expr_attrs attrs = true →
    ∃ a ∈ attrs, ECInAttr a
  | [], h => absurd h (by simp [has_jsx_expr_attrs])
  | a :: rest, h => by
    have h2 : has_jsx_expr_attr a = true ∨ has_jsx_expr_attrs rest = true := by
      simpa [has_jsx_expr_attrs, Bool.or_eq_true] using h
    rcases h2 with ha | hr
    · exact ⟨a, List.mem_cons_self _ _, ec_of_has_attr a ha⟩
    · obtain ⟨a2, hmem, ha2⟩ := ec_of_has_attrs rest hr
      exact ⟨a2, List.mem_cons_of_mem _ hmem, ha2⟩

/-- A traversal hit in an element yields a containment derivation. -/
theorem ec_of_has_element : ∀ el : JSXElement, has_jsx_expr_element el = true → ECInElement el
  | .mk (.mk name attrs sc) children closing, h => by
    have h2 : has_jsx_expr_attrs attrs = true ∨ has_jsx_expr_children children = true := by
      simpa [has_jsx_expr_element, Bool.or_eq_true] using h
    rcases h2 with ha | hc
    · obtain ⟨a, hmem, hattr⟩ := ec_of_has_attrs attrs ha
      exact .attr name attrs sc children closing a hmem hattr
    · obtain ⟨c, hmem, hchild⟩ := ec_of_has_children children hc
      exact .child name attrs sc children closing c hmem hchild

/-- A traversal hit in a child yields a containment derivation. -/
theorem ec_of_has_child : ∀ c : JSXElementChild, has_jsx_expr_child c = true → ECInChild c
  | .jsxText _, h => absurd h (by simp [has_jsx_expr_child])
  | .jsxExprContainer c, _ => .container c
  | .jsxElement el, h =>
    .element el (ec_of_has_element el (by simpa [has_jsx_expr_child] using h))
  | .jsxFragment (.mk children), h => by
    obtain ⟨c, hc, hchild⟩ :=
      ec_of_has_children children (by simpa [has_jsx_expr_child] using h)
    exact .fragment children c hc hchild
  | .other, h => absurd h (by simp [has_jsx_expr_child])

/-- A traversal hit in a child list yields a hit inside some child. -/
theorem ec_of_has_children : ∀ children : List JSXElementChild,
    has_jsx_expr_children children = true → ∃ c ∈ children, ECInChild c
  | [], h => absurd h (by simp [has_jsx_expr_children])
  | c :: rest, h => by
    have h2 : has_jsx_expr_child c = true ∨ has_jsx_expr_children rest = true := by
      simpa [has_jsx_expr_children, Bool.or_eq_true] using h
    rcases h2 with hc | hr
    · exact ⟨c, List.mem_cons_self _ _, ec_of_has_child c hc⟩
    · obtain ⟨c2, hmem, hc2⟩ := ec_of_has_children rest hr
      exact ⟨c2, List.mem_cons_of_mem _ hmem, hc2⟩

end

/-- C9: `is_static_jsx` is true exactly for elements with no attributes and
only text children; independently, `is_static_jsx_element_child` is false
for a node exactly when the node's full subtree contains at least one JSX
expression container, regardless of the static check. -/
theorem static_dynamic_classifier_claim (el : JSXElement) (c : JSXElementChild) :
    (is_static_jsx el = true ↔
      (el.opening.attrs = [] ∧ ∀ ch ∈ el.children, ∃ t, ch = JSXElementChild.jsxText t)) ∧
    (is_static_jsx_element_child c = false ↔ ECInChild c) := by
  constructor
  · unfold is_static_jsx
    constructor
    · intro h
      by_cases ha : el.opening.attrs.length > 0
      · rw [if_pos ha] at h
        cases h
      · rw [if_neg ha] at h
        refine ⟨List.eq_nil_of_length_eq_zero (by omega), ?_⟩
        intro ch hch
        have h2 := List.all_eq_true.mp h ch hch
        cases ch with
        | jsxText t => exact ⟨t, rfl⟩
        | jsxExprContainer c0 => cases h2
        | jsxElement e0 => cases h2
        | jsxFragment f0 => cases h2
        | other => cases h2
    · rintro ⟨h1, h2⟩
      rw [if_neg (by simp [h1])]
      rw [List.all_eq_true]
      intro ch hch
      obtain ⟨t, ht⟩ := h2 ch hch
      subst ht
      rfl
  · unfold is_static_jsx_element_child
    constructor
    · intro h
      have h2 : has_jsx_expr_child c = true := by
        cases hc : has_jsx_expr_child c
        · rw [hc] at h
          cases h
        · rfl
      exact ec_of_has_child c h2
    · intro h
      cases hc : has_jsx_expr_child c with
      | false => exact absurd h (not_ec_child c hc)
      | true => rfl

/-! ### Loop rewriter (claim C1) -/

/-- Counterexample to C1 as stated: on `list.map(item => (item))` the
rewriter returns `None`, but the call is not left untouched — the
parenthesization around the callback's return value is stripped in place. -/
theorem extract_jsx_loop_paren_cex :
    (extract_jsx_loop cex_map_callee cex_paren_args).2 = none ∧
    first_arg_body_is_paren cex_paren_args = true ∧
    first_arg_body_is_paren (extract_jsx_loop cex_map_callee cex_paren_args).1 = false :=
  ⟨rfl, rfl, rfl⟩

/-- C1 (amended): for every call recognized as a loop, `extract_jsx_loop`
locates the callback's return value, unwraps a single parenthesization (the
unwrapping persists in the call even when no rewrite follows), appends
exactly the for-loop marker and the `for-key="sid"` attribute to a returned
element with no other structural change, replaces a returned fragment by a
`block` element carrying those attributes and the fragment's children in
order, and otherwise returns `None` with no loop rewrite. -/
theorem extract_jsx_loop_eq_spec (callee_expr : Expr) (args : List ExprOrSpread) :
    extract_jsx_loop callee_expr args = extract_jsx_loop_spec callee_expr args := by
  unfold extract_jsx_loop extract_jsx_loop_spec
  by_cases hloop : is_call_expr_of_loop callee_expr args = true
  · rw [if_pos hloop, if_pos hloop]
    cases args with
    | nil => rfl
    | cons a rest =>
      cases a with
      | mk spread cb =>
        cases cb with
        | member obj prop => rfl
        | ident s => rfl
        | lit l => rfl
        | paren inner => rfl
        | call c2 a2 => rfl
        | jsxElement e2 => rfl
        | jsxFragment f2 => rfl
        | other => rfl
        | fnExpr body =>
          cases body with
          | none => rfl
          | some stmts =>
            simp only [jsx_loop_callback_return_value]
            cases hlast : stmts.getLast? with
            | none => simp [rewrite_last_return_stmts, hlast]
            | some st =>
              cases st with
              | other => simp [rewrite_last_return_stmts, hlast]
              | ret arg =>
                cases arg with
                | none => simp [rewrite_last_return_stmts, hlast]
                | some rv =>
                  simp only [rewrite_last_return_stmts, hlast]
                  cases hu : unparen rv with
                  | jsxElement e2 =>
                    cases e2 with
                    | mk op children closing =>
                      cases op with
                      | mk name attrs sc =>
                        simp [update_return_el, hu, set_return_value]
                  | jsxFragment f2 =>
                    cases f2 with
                    | mk children =>
                      simp [update_return_el, hu, set_return_value]
                  | member obj prop => simp [update_return_el, hu, set_return_value]
                  | ident s => simp [update_return_el, hu, set_return_value]
                  | lit l => simp [update_return_el, hu, set_return_value]
                  | paren inner => simp [update_return_el, hu, set_return_value]
                  | fnExpr b2 => simp [update_return_el, hu, set_return_value]
                  | arrow b2 => simp [update_return_el, hu, set_return_value]
                  | call c2 a2 => simp [update_return_el, hu, set_return_value]
                  | other => simp [update_return_el, hu, set_return_value]
        | arrow body =>
          cases body with
          | blockStmt stmts =>
            simp only [jsx_loop_callback_return_value]
            cases hlast : stmts.getLast? with
            | none => simp [rewrite_last_return_stmts, hlast]
            | some st =>
              cases st with
              | other => simp [rewrite_last_return_stmts, hlast]
              | ret arg =>
                cases arg with
                | none => simp [rewrite_last_return_stmts, hlast]
                | some rv =>
                  simp only [rewrite_last_return_stmts, hlast]
                  cases hu : unparen rv with
                  | jsxElement e2 =>
                    cases e2 with
                    | mk op children closing =>
                      cases op with
                      | mk name attrs sc =>
                        simp [update_return_el, hu, set_return_value]
                  | jsxFragment f2 =>
                    cases f2 with
                    | mk children =>
                      simp [update_return_el, hu, set_return_value]
                  | member obj prop => simp [update_return_el, hu, set_return_value]
                  | ident s => simp [update_return_el, hu, set_return_value]
                  | lit l => simp [update_return_el, hu, set_return_value]
                  | paren inner => simp [update_return_el, hu, set_return_value]
                  | fnExpr b2 => simp [update_return_el, hu, set_return_value]
                  | arrow b2 => simp [update_return_el, hu, set_return_value]
                  | call c2 a2 => simp [update_return_el, hu, set_return_value]
                  | other => simp [update_return_el, hu, set_return_value]
          | expr rv =>
            simp only [jsx_loop_callback_return_value]
            cases hu : unparen rv with
            | jsxElement e2 =>
              cases e2 with
              | mk op children closing =>
                cases op with
                | mk name attrs sc =>
                  simp [update_return_el, hu, set_return_value]
            | jsxFragment f2 =>
              cases f2 with
              | mk children =>
                simp [update_return_el, hu, set_return_value]
            | member obj prop => simp [update_return_el, hu, set_return_value]
            | ident s => simp [update_return_el, hu, set_return_value]
            | lit l => simp [update_return_el, hu, set_return_value]
            | paren inner => simp [update_return_el, hu, set_return_value]
            | fnExpr b2 => simp [update_return_el, hu, set_return_value]
            | arrow b2 => simp [update_return_el, hu, set_return_value]
            | call c2 a2 => simp [update_return_el, hu, set_return_value]
            | other => simp [update_return_el, hu, set_return_value]
  · rw [if_neg hloop, if_neg hloop]

/-! ### List rewrite (claim C2) -/

/-- The source-side scroll-view extraction is the claim-side filter followed
by the claim-side threshold renaming. -/
theorem extract_list_props_scroll_eq (attrs : List JSXAttrOrSpread) :
    extract_list_props attrs scroll_view_target_attrs scroll_view_props_alias =
      (allowlist_filter scroll_view_target_attrs attrs).map rename_threshold_attr := by
  unfold extract_list_props allowlist_filter
  have hfilter : (attrs.filter fun attr =>
      match attr with
      | .jsxAttr (.mk (.ident name) _) => scroll_view_target_attrs.contains name
      | _ => false) =
      attrs.filter fun a =>
        match attr_key a with
        | some k => scroll_view_target_attrs.contains k
        | none => false := by
    apply List.filter_congr
    intro a _
    cases a with
    | jsxAttr at0 =>
      cases at0 with
      | mk nm v =>
        cases nm with
        | ident s => rfl
        | other => rfl
    | spreadElement e => rfl
  rw [hfilter]
  apply List.map_congr_left
  intro a _
  cases a with
  | spreadElement e => rfl
  | jsxAttr at0 =>
    cases at0 with
    | mk nm v =>
      cases nm with
      | other => rfl
      | ident s =>
        by_cases h1 : s = "upperThresholdCount"
        · subst h1
          rfl
        · by_cases h2 : s = "lowerThresholdCount"
          · subst h2
            rfl
          · have hl : lookup_assoc scroll_view_props_alias s = none := by
              simp [lookup_assoc, scroll_view_props_alias, Ne.symm h1, Ne.symm h2]
            simp [hl, rename_threshold_attr, h1, h2]

/-- The source-side list-builder extraction is the claim-side filter (the
alias table is empty). -/
theorem extract_list_props_builder_eq (attrs : List JSXAttrOrSpread) :
    extract_list_props attrs list_builder_target_attrs [] =
      allowlist_filter list_builder_target_attrs attrs := by
  unfold extract_list_props allowlist_filter
  have hfilter : (attrs.filter fun attr =>
      match attr with
      | .jsxAttr (.mk (.ident name) _) => list_builder_target_attrs.contains name
      | _ => false) =
      attrs.filter fun a =>
        match attr_key a with
        | some k => list_builder_target_attrs.contains k
        | none => false := by
    apply List.filter_congr
    intro a _
    cases a with
    | jsxAttr at0 =>
      cases at0 with
      | mk nm v =>
        cases nm with
        | ident s => rfl
        | other => rfl
    | spreadElement e => rfl
  rw [hfilter]
  have hmap : ∀ a ∈ (attrs.filter fun a =>
      match attr_key a with
      | some k => list_builder_target_attrs.contains k
      | none => false),
      (match a with
       | .jsxAttr (.mk (.ident name) v) =>
         match lookup_assoc [] name with
         | some al => JSXAttrOrSpread.jsxAttr (.mk (.ident al) v)
         | none => JSXAttrOrSpread.jsxAttr (.mk (.ident name) v)
       | a => a) = a := by
    intro a _
    cases a with
    | spreadElement e => rfl
    | jsxAttr at0 =>
      cases at0 with
      | mk nm v =>
        cases nm with
        | ident s => rfl
        | other => rfl
  rw [List.map_congr_left hmap]
  simp

/-- The key produced by the threshold renaming is the original key or one of
the two alias targets. -/
theorem attr_key_rename (b : JSXAttrOrSpread) (k : String)
    (h : attr_key (rename_threshold_attr b) = some k) :
    attr_key b = some k ∨ k = "upperThreshold" ∨ k = "lowerThreshold" := by
  cases b with
  | spreadElement e =>
    left
    exact h
  | jsxAttr at0 =>
    cases at0 with
    | mk nm v =>
      cases nm with
      | other =>
        left
        exact h
      | ident s =>
        by_cases h1 : s = "upperThresholdCount"
        · subst h1
          simp [rename_threshold_attr, attr_key] at h
          right
          left
          exact h.symm
        · by_cases h2 : s = "lowerThresholdCount"
          · subst h2
            simp [rename_threshold_attr, h1, attr_key] at h
            right
            right
            exact h.symm
          · left
            simpa [rename_threshold_attr, h1, h2, attr_key] using h

/-- Membership in the claim-side filter forces an allowlisted key. -/
theorem mem_allowlist_filter (allow : List String) (attrs : List JSXAttrOrSpread)
    (b : JSXAttrOrSpread) (hb : b ∈ allowlist_filter allow attrs) :
    ∃ kb, attr_key b = some kb ∧ kb ∈ allow := by
  unfold allowlist_filter at hb
  rw [List.mem_filter] at hb
  cases hk : attr_key b with
  | none =>
    rw [hk] at hb
    exact absurd hb.2 (by simp)
  | some kb =>
    rw [hk] at hb
    refine ⟨kb, rfl, ?_⟩
    simpa using hb.2

/-- C2: the List rewrite produces a `scroll-view` whose attributes are the
original ones filtered to the scroll-view allowlist in order, with the two
threshold keys renamed, plus a forced `type="custom"`; it contains exactly
one `list-builder` child whose attributes are the original ones filtered to
the second, disjoint allowlist plus a forced `className="list-builder"`, and
whose children are the original children; a key in neither allowlist (and
not one of the forced or renamed keys) occurs nowhere in the result. -/
theorem transform_list_component_claim (el : JSXElement) :
    transform_list_component el =
      JSXElement.mk (.mk (.ident "scroll-view")
        ((allowlist_filter scroll_view_target_attrs el.opening.attrs).map rename_threshold_attr ++
          [type_custom_attr]) false)
        [.jsxElement (JSXElement.mk (.mk (.ident "list-builder")
          (allowlist_filter list_builder_target_attrs el.opening.attrs ++
            [class_list_builder_attr]) false)
          el.children (some (.ident "list-builder")))]
        (some (.ident "scroll-view")) ∧
    (∀ k : String, k ∉ scroll_view_target_attrs → k ∉ list_builder_target_attrs →
      k ≠ "type" → k ≠ "upperThreshold" → k ≠ "lowerThreshold" →
      k ∉ result_attr_keys (transform_list_component el)) := by
  have h1 : transform_list_component el =
      JSXElement.mk (.mk (.ident "scroll-view")
        ((allowlist_filter scroll_view_target_attrs el.opening.attrs).map rename_threshold_attr ++
          [type_custom_attr]) false)
        [.jsxElement (JSXElement.mk (.mk (.ident "list-builder")
          (allowlist_filter list_builder_target_attrs el.opening.attrs ++
            [class_list_builder_attr]) false)
          el.children (some (.ident "list-builder")))]
        (some (.ident "scroll-view")) := by
    unfold transform_list_component create_jsx_element create_jsx_ident_opening_element
      create_jsx_ident_closing_element extract_scroll_view_props extract_list_builder_props
    rw [extract_list_props_scroll_eq, extract_list_props_builder_eq]
    rfl
  refine ⟨h1, ?_⟩
  intro k hks hkb ht hu hl hmem
  rw [h1] at hmem
  unfold result_attr_keys at hmem
  simp only [JSXElement.opening, JSXOpeningElement.attrs, JSXElement.children,
    List.filterMap_cons, List.filterMap_nil, List.flatten] at hmem
  rw [List.mem_append] at hmem
  rcases hmem with hscroll | hbuilder
  · unfold attr_keys_of at hscroll
    rw [List.mem_filterMap] at hscroll
    obtain ⟨a, ha, hak⟩ := hscroll
    rw [List.mem_append] at ha
    rcases ha with hmap | hforced
    · rw [List.mem_map] at hmap
      obtain ⟨b, hbf, hba⟩ := hmap
      obtain ⟨kb, hkb2, hkbin⟩ := mem_allowlist_filter _ _ b hbf
      subst hba
      rcases attr_key_rename b k hak with hsame | hup | hlow
      · rw [hkb2] at hsame
        cases hsame
        exact hks hkbin
      · exact hu hup
      · exact hl hlow
    · rw [List.mem_singleton] at hforced
      subst hforced
      simp [type_custom_attr, attr_key] at hak
      exact ht hak.symm
  · simp only [List.append_nil] at hbuilder
    unfold attr_keys_of at hbuilder
    rw [List.mem_filterMap] at hbuilder
    obtain ⟨a, ha, hak⟩ := hbuilder
    rw [List.mem_append] at ha
    rcases ha with hfilt | hforced
    · obtain ⟨kb, hkb2, hkbin⟩ := mem_allowlist_filter _ _ a hfilt
      rw [hkb2] at hak
      cases hak
      exact hkb hkbin
    · rw [List.mem_singleton] at hforced
      subst hforced
      have hkc : k = "className" := by
        simpa [class_list_builder_attr, attr_key, eq_comm] using hak
      subst hkc
      exact hks (by decide)

/-- Witness for C2 at a sample `List` element with one attribute dropped. -/
theorem transform_list_component_claim_witness :
    transform_list_component ex_list_element =
      JSXElement.mk (.mk (.ident "scroll-view")
        [.jsxAttr (.mk (.ident "scrollX") none),
         .jsxAttr (.mk (.ident "upperThreshold") (some (.lit (.str "5")))),
         type_custom_attr] false)
        [.jsxElement (JSXElement.mk (.mk (.ident "list-builder")
          [class_list_builder_attr] false)
          [.jsxText "row"] (some (.ident "list-builder")))]
        (some (.ident "scroll-view")) ∧
    "droppedProp" ∉ result_attr_keys (transform_list_component ex_list_element) := by
  have h := transform_list_component_claim ex_list_element
  constructor
  · rw [h.1]
    rfl
  · exact h.2 "droppedProp" (by decide) (by decide) (by decide) (by decide) (by decide)

/-! ### Sanity checks mirroring the unit tests of the source file -/

/-- The five text-normalization unit tests of the source file (lines
710-726) hold for the embedding. -/
theorem jsx_text_unit_tests :
    jsx_text_to_string "   span  " = "   span  " ∧
    jsx_text_to_string "   s\n     \n  \n   xxx   " = "   s xxx   " ∧
    jsx_text_to_string "   \n    \n   a   b  \n   " = "a   b" ∧
    jsx_text_to_string "\n\n\n\n\n\n                   \n\n                " = "" ∧
    jsx_text_to_string "" = "" := by
  refine ⟨?_, ?_, ?_, ?_, ?_⟩ <;> decide

/-- The kebab conversion example of the source comment: `aBcD` becomes
`a-bc-d`. -/
theorem to_kebab_case_comment_example : to_kebab_case "aBcD" = "a-bc-d" := by
  decide

end Taro
